import Mathlib

/-!
Verification of the bit-plane raster core.

This file gives a shallow embedding of the three collaborating components of
the raster engine — the `BitPlane` (storage and clipping), the `PhaseAlign`
fetcher (bit-level source alignment) and the `Blt` dispatcher (per-byte
fetch-logic-store with edge masks) — together with proofs of the stated
properties of `create`, the parameterised constructor, the raster-operation
table and the binary `bitBlt`.

Machine bytes (`scanbyte`) are modelled as natural numbers kept below 256:
every write truncates mod 256 and every read truncates mod 256, exactly as an
8-bit unsigned store behaves.  Machine `int` values are modelled as `Int`;
where the code relies on two's-complement wrap-around of negation (the
`INT_MIN` trap in `create`) the wrap is made explicit via `wrap32`.  Pointers
are modelled as integer byte addresses into a single flat memory, so that
pointer arithmetic (including the negative row displacements of the blit
inner loop) is represented faithfully.
-/

namespace raster

/-- Flat byte memory, indexed by integer byte addresses (pointers).
Values are truncated to bytes on read and write. -/
abbrev Mem := Int → Nat

/-- Read one scan byte, as an 8-bit load does. -/
def readMem (m : Mem) (a : Int) : Nat := m a % 256

/-- Store one scan byte, as an 8-bit store does. -/
def writeMem (m : Mem) (a : Int) (v : Nat) : Mem :=
  fun i => if i = a then v % 256 else m i

/-- Two's-complement wrap of an `Int` into the 32-bit signed range. -/
def wrap32 (v : Int) : Int := (v + 2147483648) % 4294967296 - 2147483648

/-- `cx = -cx` on a 32-bit machine `int`: negation with two's-complement
wrap-around, so that negating `INT_MIN` yields `INT_MIN` again. -/
def negWrap (v : Int) : Int := wrap32 (-v)

/-- The most negative representable 32-bit `int`. -/
def intMin : Int := -2147483648

/-- The three phase-alignment behaviours: the base (in-phase) fetcher and the
`RightShift` / `LeftShift` subclasses of `phase_align.hxx`. -/
inductive AlignKind where
  | inPhase
  | rightShift
  | leftShift
deriving DecidableEq

/-- The `PhaseAlign` functor state: the variant in play, the source cursor
`store`, and — for the shifting variants — the `carry` byte and the
`shiftCount`.  Subclass dispatch is modelled by matching on `kind`. -/
structure PhaseAlign where
  kind : AlignKind
  store : Int
  carry : Nat
  shiftCount : Int
deriving DecidableEq

/-- `prefetch`: a no-op for the base and `RightShift` variants; `LeftShift`
pre-loads `carry` from the cursor without advancing (`carry = *store`). -/
def PhaseAlign.prefetch (m : Mem) (p : PhaseAlign) : PhaseAlign :=
  match p.kind with
  | .leftShift => { p with carry := readMem m p.store }
  | _ => p

/-- The exchange helper `xchgl(r, g)`: swap the two operands; the result pair
is the new `(r, g)`. -/
def xchgl (r g : Nat) : Nat × Nat := (g, r)

/-- The double-shift helper `shrdl(c, r, g)`: `g = (r << (8 - c)) | (g >> c)`,
truncated to a byte as the `scanbyte` assignment truncates it. -/
def shrdl (c : Int) (r g : Nat) : Nat :=
  ((r <<< (8 - c).toNat) ||| (g >>> c.toNat)) % 256

/-- The double-shift helper `shldl(c, r, g)`: `g = (g << c) | (r >> (8 - c))`,
truncated to a byte as the `scanbyte` assignment truncates it. -/
def shldl (c : Int) (r g : Nat) : Nat :=
  ((g <<< c.toNat) ||| (r >>> (8 - c).toNat)) % 256

/-- `fetch`: returns the next phase-aligned scan byte and the updated functor.

* base: `return *store++`.
* `RightShift::fetch`: `hi = lo = *store++; xchgl(hi, carry);
  shrdl(shiftCount, hi, lo); return lo`.
* `LeftShift::fetch`: `hi = lo = *++store; xchgl(hi, carry);
  shldl(shiftCount, lo, hi); return hi`. -/
def PhaseAlign.fetch (m : Mem) (p : PhaseAlign) : Nat × PhaseAlign :=
  match p.kind with
  | .inPhase => (readMem m p.store, { p with store := p.store + 1 })
  | .rightShift =>
      let lo := readMem m p.store
      let hi := lo
      let hc := xchgl hi p.carry
      (shrdl p.shiftCount hc.1 lo, { p with store := p.store + 1, carry := hc.2 })
  | .leftShift =>
      let s := p.store + 1
      let lo := readMem m s
      let hi := lo
      let hc := xchgl hi p.carry
      (shldl p.shiftCount lo hc.1, { p with store := s, carry := hc.2 })

/-- The memory address the `j`-th `fetch` call (counting from 0) reads when
started from functor state `p`: the cursor advances by one byte per fetch,
and the `LeftShift` variant pre-increments before reading. -/
def PhaseAlign.rdAddrAt (p : PhaseAlign) (j : Nat) : Int :=
  match p.kind with
  | .leftShift => p.store + 1 + j
  | _ => p.store + j

/-- The dead-bits condition: the mask has no bit that the freshly read byte
`lo` of a `fetch` can influence — `lo` only reaches the low `8 - k` result
bits of a right shift (respectively the low `k` bits of a left shift), so a
mask with no such bit makes the masked fetch result independent of `lo`.
The in-phase fetch returns the byte unchanged, so no mask bit is dead. -/
def killCond (p : PhaseAlign) (mask : Nat) : Prop :=
  match p.kind with
  | .inPhase => False
  | .rightShift => mask &&& (2 ^ (8 - p.shiftCount).toNat - 1) = 0
  | .leftShift => mask &&& (2 ^ p.shiftCount.toNat - 1) = 0

/-- The base fetcher local `PhaseAlign fetch;` of `bitBlt`. -/
def PhaseAlign.base : PhaseAlign :=
  { kind := .inPhase, store := 0, carry := 0, shiftCount := 0 }

/-- The local `RightShift fetchRightShift;` of `bitBlt`: the `carry` member
initialiser is `0x00U`; the shift count is assigned by `bitBlt` before use. -/
def RightShift.make (k : Int) : PhaseAlign :=
  { kind := .rightShift, store := 0, carry := 0, shiftCount := k }

/-- The local `LeftShift fetchLeftShift;` of `bitBlt`: carry starts at
`0x00U`; the shift count is assigned by `bitBlt` before use. -/
def LeftShift.make (k : Int) : PhaseAlign :=
  { kind := .leftShift, store := 0, carry := 0, shiftCount := k }

/-- The sixteen binary raster-operation codes of `rop.hxx`, in table order. -/
inductive Rop2 where
  | rop0
  | ropDSon
  | ropDSna
  | ropSn
  | ropSDna
  | ropDn
  | ropDSx
  | ropDSan
  | ropDSa
  | ropDSxn
  | ropD
  | ropDSno
  | ropS
  | ropSDno
  | ropDSo
  | rop1
deriving DecidableEq

/-- Alias from `rop.hxx`: `srcCopy = ropS`. -/
def Rop2.srcCopy : Rop2 := Rop2.ropS

/-- Alias from `rop.hxx`: `srcInvert = ropDSx`. -/
def Rop2.srcInvert : Rop2 := Rop2.ropDSx

/-- Whether the reverse-Polish definition of the operation in `blt.cxx`
references the source operand `S` (and hence calls `fetch()`). -/
def Rop2.hasS : Rop2 → Bool
  | .rop0 => false
  | .ropDn => false
  | .ropD => false
  | .rop1 => false
  | _ => true

/-- The unary raster-operation codes of `rop.hxx`. -/
inductive Rop1 where
  | blackness
  | dstInvert
  | whiteness
deriving DecidableEq

/-- The binary code a unary code converts to (`Rop2(rop1)` in the source:
`blackness = rop0`, `dstInvert = ropDn`, `whiteness = rop1`). -/
def Rop1.toRop2 : Rop1 → Rop2
  | .blackness => .rop0
  | .dstInvert => .ropDn
  | .whiteness => .rop1

/-- The `Blt` functor state: the selected raster operation, the bound
`PhaseAlign` fetcher, and the destination cursor `store`. -/
structure Blt where
  rop : Rop2
  phaseAlign : PhaseAlign
  store : Int
deriving DecidableEq

/-- `fetchLogic`: run the selected Boolean raster-operation of `blt.cxx` on
the destination byte `D = *store` and (lazily) the source byte `S = fetch()`.
Operations whose definition does not mention `S` never call `fetch`, so the
fetcher state passes through unchanged; all results are truncated to a byte
exactly where the `scanbyte` return type truncates them. -/
def Blt.fetchLogic (m : Mem) (b : Blt) : Nat × Blt :=
  match b.rop with
  | .rop0 => (0x00, b)
  | .ropDSon =>
      let d := readMem m b.store
      let sp := b.phaseAlign.fetch m
      ((d ||| sp.1) ^^^ 0xff, { b with phaseAlign := sp.2 })
  | .ropDSna =>
      let d := readMem m b.store
      let sp := b.phaseAlign.fetch m
      (d &&& (sp.1 ^^^ 0xff), { b with phaseAlign := sp.2 })
  | .ropSn =>
      let sp := b.phaseAlign.fetch m
      (sp.1 ^^^ 0xff, { b with phaseAlign := sp.2 })
  | .ropSDna =>
      let d := readMem m b.store
      let sp := b.phaseAlign.fetch m
      (sp.1 &&& (d ^^^ 0xff), { b with phaseAlign := sp.2 })
  | .ropDn => (readMem m b.store ^^^ 0xff, b)
  | .ropDSx =>
      let d := readMem m b.store
      let sp := b.phaseAlign.fetch m
      (d ^^^ sp.1, { b with phaseAlign := sp.2 })
  | .ropDSan =>
      let d := readMem m b.store
      let sp := b.phaseAlign.fetch m
      ((d &&& sp.1) ^^^ 0xff, { b with phaseAlign := sp.2 })
  | .ropDSa =>
      let d := readMem m b.store
      let sp := b.phaseAlign.fetch m
      (d &&& sp.1, { b with phaseAlign := sp.2 })
  | .ropDSxn =>
      let d := readMem m b.store
      let sp := b.phaseAlign.fetch m
      ((d ^^^ sp.1) ^^^ 0xff, { b with phaseAlign := sp.2 })
  | .ropD => (readMem m b.store, b)
  | .ropDSno =>
      let d := readMem m b.store
      let sp := b.phaseAlign.fetch m
      (d ||| (sp.1 ^^^ 0xff), { b with phaseAlign := sp.2 })
  | .ropS =>
      let sp := b.phaseAlign.fetch m
      (sp.1, { b with phaseAlign := sp.2 })
  | .ropSDno =>
      let d := readMem m b.store
      let sp := b.phaseAlign.fetch m
      (sp.1 ||| (d ^^^ 0xff), { b with phaseAlign := sp.2 })
  | .ropDSo =>
      let d := readMem m b.store
      let sp := b.phaseAlign.fetch m
      (d ||| sp.1, { b with phaseAlign := sp.2 })
  | .rop1 => (0xff, b)

/-- Masked `fetchLogicStore(mask)`:
`*store++ = (*store & ~mask) | (mask & fetchLogic())`. -/
def Blt.fetchLogicStore (m : Mem) (b : Blt) (mask : Nat) : Mem × Blt :=
  let vb := b.fetchLogic m
  let d := readMem m b.store
  (writeMem m b.store ((d &&& (mask ^^^ 0xff)) ||| (mask &&& vb.1)),
    { vb.2 with store := vb.2.store + 1 })

/-- Unmasked `fetchLogicStore()`: `*store++ = fetchLogic()`. -/
def Blt.fetchLogicStoreFull (m : Mem) (b : Blt) : Mem × Blt :=
  let vb := b.fetchLogic m
  (writeMem m b.store vb.1, { vb.2 with store := vb.2.store + 1 })

/-- The `BitPlane` descriptor: its extents, the scan-line stride in bytes,
the base address of its store, and the ownership flag. -/
structure BitPlane where
  width : Int
  height : Int
  widthScanBytes : Int
  store : Int
  autoDelete : Bool
deriving DecidableEq

/-- The default constructor `BitPlane()`: the empty plane (the in-class
default initialises `widthScanBytes` to 0; `store` is null). -/
def BitPlane.empty : BitPlane :=
  { width := 0, height := 0, widthScanBytes := 0, store := 0, autoDelete := false }

/-- The scan-line size computation shared by `create` and the parameterised
constructor: `widthScanBytes = cx >> 3`, plus one if `cx & 7`. -/
def scanBytesOf (cx : Int) : Int :=
  cx / 8 + (if cx % 8 ≠ 0 then 1 else 0)

/-- The parameterised constructor `BitPlane(cx, cy, v)`: absolutise negative
extents; when both are positive record them and the scan-line stride, else
zero the extents (leaving `widthScanBytes` at its in-class default 0); in
either case the caller's buffer is stored (`store = v`) and not owned. -/
def BitPlane.ofBuffer (cx cy : Int) (v : Int) : BitPlane :=
  let cx := if cx < 0 then negWrap cx else cx
  let cy := if cy < 0 then negWrap cy else cy
  if 0 < cx ∧ 0 < cy then
    { width := cx, height := cy, widthScanBytes := scanBytesOf cx,
      store := v, autoDelete := false }
  else
    { width := 0, height := 0, widthScanBytes := 0, store := v, autoDelete := false }

/-- The destructor `~BitPlane()`: zero the extents, release owned storage,
clear the ownership flag and null the store pointer. -/
def BitPlane.destroy (p : BitPlane) : BitPlane :=
  { width := 0, height := 0, widthScanBytes := p.widthScanBytes,
    store := 0, autoDelete := false }

/-- `create(cx, cy)`: absolutise negative extents with machine negation,
reject a zero-or-negative result (returning false with the plane untouched —
the early return precedes the destructor call), otherwise destroy the old
plane, compute the stride, and take ownership of a fresh allocation at
`newStore` (allocation success is assumed; the failure path is out of the
claims' scope). -/
def BitPlane.create (p : BitPlane) (cx cy : Int) (newStore : Int) : Bool × BitPlane :=
  let cx := if cx < 0 then negWrap cx else cx
  let cy := if cy < 0 then negWrap cy else cy
  if cx ≤ 0 ∨ cy ≤ 0 then (false, p)
  else
    let p1 := p.destroy
    (true, { p1 with widthScanBytes := scanBytesOf cx, store := newStore,
                     autoDelete := true, width := cx, height := cy })

/-- `findBits(x, y)`: the address of the scan byte holding pixel `(x, y)`:
`store + widthScanBytes * y + (x >> 3)`. -/
def BitPlane.findBits (p : BitPlane) (x y : Int) : Int :=
  p.store + p.widthScanBytes * y + x / 8

/-- The horizontal (or vertical) origin-clipping offset, exactly as the blit
computes it: `o < 0 ? (o < oSrc ? -o : -oSrc) : (oSrc < 0 ? -oSrc : 0)`. -/
def clipOffset (o oSrc : Int) : Int :=
  if o < 0 then (if o < oSrc then -o else -oSrc)
  else (if oSrc < 0 then -oSrc else 0)

/-- The Y-axis clipping chain of `bitBlt` (origin offset, then the two
`cyMax` clamps), applied after the X axis has been clipped.  Returns the
fully clipped `(x, y, cx, cy, xSrc, ySrc)` or `none` on empty intersection. -/
def clipY (dst src : BitPlane) (x y cx cy xSrc ySrc : Int) :
    Option (Int × Int × Int × Int × Int × Int) :=
  let yOff := clipOffset y ySrc
  if cy ≤ yOff then none
  else
    let y := y + yOff
    let ySrc := ySrc + yOff
    let cy := cy - yOff
    let cyMax := dst.height - y
    if cyMax ≤ 0 then none
    else
      let cy := if cyMax < cy then cyMax else cy
      let cyMax := src.height - ySrc
      if cyMax ≤ 0 then none
      else
        let cy := if cyMax < cy then cyMax else cy
        some (x, y, cx, cy, xSrc, ySrc)

/-- The X-axis extent clamps of `bitBlt` (the two `cxMax` tests), applied
after the X origin offset, followed by the Y-axis chain. -/
def clipXMax (dst src : BitPlane) (x y cx cy xSrc ySrc : Int) :
    Option (Int × Int × Int × Int × Int × Int) :=
  let cxMax := dst.width - x
  if cxMax ≤ 0 then none
  else
    let cx := if cxMax < cx then cxMax else cx
    let cxMax := src.width - xSrc
    if cxMax ≤ 0 then none
    else
      let cx := if cxMax < cx then cxMax else cx
      clipY dst src x y cx cy xSrc ySrc

/-- The complete clipping pipeline of `bitBlt` after extent normalisation:
X origin offset (`if (xOff >= cx) return false`), X extent clamps, then the
Y axis. -/
def clipRect (dst src : BitPlane) (x y cx cy xSrc ySrc : Int) :
    Option (Int × Int × Int × Int × Int × Int) :=
  let xOff := clipOffset x xSrc
  if cx ≤ xOff then none
  else clipXMax dst src (x + xOff) y (cx - xOff) cy (xSrc + xOff) ySrc

/-- Extent normalisation followed by clipping: a negative extent is negated
and the corresponding origins pulled back by it, then `clipRect` runs. -/
def clipAll (dst src : BitPlane) (x y cx cy xSrc ySrc : Int) :
    Option (Int × Int × Int × Int × Int × Int) :=
  let t1 := if cx < 0 then (x + cx, xSrc + cx, -cx) else (x, xSrc, cx)
  let t2 := if cy < 0 then (y + cy, ySrc + cy, -cy) else (y, ySrc, cy)
  clipRect dst src t1.1 t2.1 t1.2.2 t2.2.2 t1.2.1 t2.2.1

/-- The run of unmasked middle stores of one scan line:
`while (--scanByteCount) blt.fetchLogicStore();` run `n` times. -/
def middleStores (m : Mem) (b : Blt) : Nat → Mem × Blt
  | 0 => (m, b)
  | n + 1 =>
      let mb := b.fetchLogicStoreFull m
      middleStores mb.1 mb.2 n

/-- One scan line of the blit inner loop: `prefetch`, then either a single
fetch-logic-store under the merged mask (when the line's bits begin and end
in the same scan byte) or the masked first byte, `extra - 1` unmasked middle
bytes, and the masked last byte. -/
def bltRow (m : Mem) (b : Blt) (extra : Nat) (orgMask extMask : Nat) : Mem × Blt :=
  let b := { b with phaseAlign := b.phaseAlign.prefetch m }
  if extra = 0 then
    b.fetchLogicStore m (orgMask &&& extMask)
  else
    let mb1 := b.fetchLogicStore m orgMask
    let mb2 := middleStores mb1.1 mb1.2 (extra - 1)
    mb2.2.fetchLogicStore mb2.1 extMask

/-- The store phase of a scan line after the prefetch: `bltRow` is exactly
`bltRowCore` applied to the prefetched functor state. -/
def bltRowCore (m : Mem) (b : Blt) (extra orgMask extMask : Nat) : Mem × Blt :=
  if extra = 0 then
    b.fetchLogicStore m (orgMask &&& extMask)
  else
    let mb1 := b.fetchLogicStore m orgMask
    let mb2 := middleStores mb1.1 mb1.2 (extra - 1)
    mb2.2.fetchLogicStore mb2.1 extMask

/-- The outer loop of the blit: `cy` scan lines, each followed by advancing
the destination cursor by `displace` and the fetcher cursor by
`displaceSrc` (both displacements may be negative). -/
def bltRows (m : Mem) (b : Blt) (extra : Nat) (orgMask extMask : Nat)
    (displace displaceSrc : Int) : Nat → Mem × Blt
  | 0 => (m, b)
  | n + 1 =>
      let mb := bltRow m b extra orgMask extMask
      let b2 := { mb.2 with store := mb.2.store + displace,
                            phaseAlign := { mb.2.phaseAlign with
                              store := mb.2.phaseAlign.store + displaceSrc } }
      bltRows mb.1 b2 extra orgMask extMask displace displaceSrc n

/-- The body of `bitBlt` once clipping has succeeded (all coordinates are
now non-negative and the extents positive): select the phase-alignment
variant from `(x & 7) - (xSrc & 7)`, compute the edge masks and row
displacements, position both cursors with `findBits`, and run the rows. -/
def bitBltBody (m : Mem) (dst src : BitPlane) (x y cx cy xSrc ySrc : Nat)
    (rop : Rop2) : Bool × Mem :=
  let shiftCount : Int := (x % 8 : Nat) - (xSrc % 8 : Nat)
  let fetcher : PhaseAlign :=
    if shiftCount < 0 then LeftShift.make (-shiftCount)
    else if shiftCount = 0 then PhaseAlign.base
    else RightShift.make shiftCount
  let xMax : Nat := x + cx - 1
  let extra : Nat := xMax / 8 - x / 8
  let scanOrgMask : Nat := 0xff >>> (x % 8)
  let scanExtMask : Nat := (0xff <<< (7 - xMax % 8)) % 256
  let displace : Int := dst.widthScanBytes - 1 - (extra : Int)
  let displaceSrc : Int := src.widthScanBytes - 1 - (extra : Int)
  let b : Blt :=
    { rop := rop,
      phaseAlign := { fetcher with store := src.findBits (xSrc : Int) (ySrc : Int) },
      store := dst.findBits (x : Int) (y : Int) }
  let r := bltRows m b extra scanOrgMask scanExtMask displace displaceSrc cy
  (true, r.1)

/-- The binary `bitBlt(x, y, cx, cy, bitPlaneSrc, xSrc, ySrc, rop2)`:
normalise the extents, clip both rectangles, and run the inner loops; every
failure path returns `false` with the memory untouched. -/
def bitBlt (m : Mem) (dst src : BitPlane) (x y cx cy xSrc ySrc : Int)
    (rop : Rop2) : Bool × Mem :=
  match clipAll dst src x y cx cy xSrc ySrc with
  | none => (false, m)
  | some (x, y, cx, cy, xSrc, ySrc) =>
      bitBltBody m dst src x.toNat y.toNat cx.toNat cy.toNat xSrc.toNat ySrc.toNat rop

/-- The unary `bitBlt(x, y, cx, cy, rop1)`: delegate to the binary blit with
the destination as its own source. -/
def bitBltUnary (m : Mem) (p : BitPlane) (x y cx cy : Int) (rop : Rop1) : Bool × Mem :=
  bitBlt m p p x y cx cy x y rop.toRop2

/-- The address of the scan byte holding pixel `(px, py)` of a plane
(pixel coordinates taken as naturals, i.e. inside the plane's quadrant). -/
def BitPlane.pixAddr (p : BitPlane) (px py : Nat) : Int :=
  p.store + p.widthScanBytes * (py : Int) + ((px / 8 : Nat) : Int)

/-- The bit of pixel `(px, py)`: bit `7 - (px & 7)` of its scan byte. -/
def bitAt (m : Mem) (p : BitPlane) (px py : Nat) : Bool :=
  (readMem m (p.pixAddr px py)).testBit (7 - px % 8)

/-- The plane invariant of the data model: non-negative extents, and — for a
non-empty plane — a scan-line stride of `ceil(width / 8)` bytes.  (An empty
plane may carry a stale stride: the destructor zeroes only the extents.) -/
def BitPlane.wf (p : BitPlane) : Prop :=
  0 ≤ p.width ∧ 0 ≤ p.height ∧
    (p.width = 0 ∨ p.height = 0 ∨ p.widthScanBytes = (p.width + 7) / 8)

/-- `a` addresses a byte of `p`'s backing store. -/
def BitPlane.inStore (p : BitPlane) (a : Int) : Prop :=
  p.store ≤ a ∧ a < p.store + p.widthScanBytes * p.height

/-- The write mask the inner loop applies to the `t`-th byte of a scan line:
the merged mask when the line fits one byte, the origin mask on the first
byte, the extent mask on the last, and all ones in between. -/
def rowMaskAt (extra orgMask extMask : Nat) (t : Nat) : Nat :=
  if extra = 0 then orgMask &&& extMask
  else if t = 0 then orgMask
  else if t = extra then extMask
  else 0xff

/-- The 16-by-1 source plane of the scenario, with its two bytes at
addresses 100 and 101. -/
def srcC6 : BitPlane := BitPlane.ofBuffer 16 1 100

/-- The 17-by-1 destination plane of the scenario, three bytes at 0..2. -/
def dstC6 : BitPlane := BitPlane.ofBuffer 17 1 0

/-- The scenario memory: source bytes `0xFF 0x00`, destination zeroed. -/
def memC6 : Mem := fun a => if a = 100 then 0xff else 0

/-- Destination plane of the concrete frame-property scenario: 8 by 1 at
address 0, with one byte. -/
def dstW : BitPlane := BitPlane.ofBuffer 8 1 0

/-- Source plane of the concrete frame-property scenario: 8 by 1 at 50. -/
def srcW : BitPlane := BitPlane.ofBuffer 8 1 50

/-- Memory of the concrete frame-property scenario. -/
def memW : Mem := fun a => if a = 50 then 0xff else if a = 0 then 0xaa else 0

/-! ### Small arithmetic facts about the model -/

theorem wrap32_eq_self (v : Int) (h1 : -2147483648 ≤ v) (h2 : v < 2147483648) :
    wrap32 v = v := by
  unfold wrap32
  omega

theorem negWrap_eq_neg (v : Int) (h1 : -2147483648 < v) (h2 : v ≤ 2147483648) :
    negWrap v = -v := by
  unfold negWrap
  exact wrap32_eq_self _ (by omega) (by omega)

theorem scanBytesOf_eq_ceil (c : Int) (hc : 0 ≤ c) : scanBytesOf c = (c + 7) / 8 := by
  unfold scanBytesOf
  split <;> omega

/-! ### Claims about construction (`create`, the parameterised constructor) -/

/-- Claim C10: `create` with an extent equal to the most negative
representable `int` returns false with the plane untouched (so nothing is
released or allocated): machine negation wraps `INT_MIN` to itself, which the
`<= 0` test then rejects before the destructor or the allocation runs. -/
theorem claim_C10 (p : BitPlane) (cx cy : Int) (newStore : Int)
    (h : cx = intMin ∨ cy = intMin) :
    p.create cx cy newStore = (false, p) := by
  have hneg : negWrap intMin = intMin := by decide
  have hlt : intMin < 0 := by decide
  rcases h with h | h <;> subst h <;> simp only [BitPlane.create]
  · rw [if_pos hlt, hneg, if_pos (Or.inl (by decide))]
  · rw [if_pos hlt, hneg, if_pos (Or.inr (by decide))]

theorem claim_C10_witness : BitPlane.empty.create intMin 5 77 = (false, BitPlane.empty) :=
  claim_C10 BitPlane.empty intMin 5 77 (Or.inl rfl)

/-- Claim C2, the code's actual behaviour at the failing input: on a plane
previously created as 8-by-8, `create(0, 0)` returns false but leaves the
plane untouched — still 8 wide, still owning its storage — because the
`<= 0` early return precedes the `this->~BitPlane()` call.  This contradicts
the claim (and the code's own comment that `create(0, 0)` frees the plane),
which say the plane becomes empty. -/
theorem claim_C2_code_behavior :
    (BitPlane.empty.create 8 8 40).2.create 0 0 0 = (false, (BitPlane.empty.create 8 8 40).2) ∧
    ((BitPlane.empty.create 8 8 40).2.create 0 0 0).2.width = 8 ∧
    ((BitPlane.empty.create 8 8 40).2.create 0 0 0).2.autoDelete = true := by
  decide

/-- Claim C8, counterexample to the claim as stated: with `cx = 0` the
constructed plane is empty, yet the buffer address is retained in `store`
(the constructor stores `v` unconditionally), refuting "the buffer is
ignored (not retained or used by the plane)". -/
theorem claim_C8_counterexample :
    (BitPlane.ofBuffer 0 5 42).width = 0 ∧ (BitPlane.ofBuffer 0 5 42).height = 0 ∧
    (BitPlane.ofBuffer 0 5 42).store = 42 := by
  decide

/-- Claim C8 as amended: for every `cx`, `cy` in the representable range and
buffer `v`: if either absolutised extent is zero the plane is empty (width
and height zero, stride zero) and the buffer pointer is stored but never
used — ownership is not taken; otherwise width and height equal the
absolutised extents, `widthScanBytes = ceil(cx / 8)`, and the buffer is
borrowed without taking ownership. -/
theorem claim_C8 (cx cy : Int) (v : Int)
    (hx1 : intMin < cx) (hx2 : cx < 2147483648) (hy1 : intMin < cy) (hy2 : cy < 2147483648) :
    ((|cx| = 0 ∨ |cy| = 0) →
      BitPlane.ofBuffer cx cy v =
        { width := 0, height := 0, widthScanBytes := 0, store := v, autoDelete := false }) ∧
    (0 < |cx| → 0 < |cy| →
      BitPlane.ofBuffer cx cy v =
        { width := |cx|, height := |cy|, widthScanBytes := (|cx| + 7) / 8,
          store := v, autoDelete := false }) := by
  have hax : (if cx < 0 then negWrap cx else cx) = |cx| := by
    rcases le_or_lt 0 cx with h | h
    · rw [if_neg (not_lt.2 h), abs_of_nonneg h]
    · rw [if_pos h, negWrap_eq_neg cx (by simpa [intMin] using hx1) (by omega),
        abs_of_neg h]
  have hay : (if cy < 0 then negWrap cy else cy) = |cy| := by
    rcases le_or_lt 0 cy with h | h
    · rw [if_neg (not_lt.2 h), abs_of_nonneg h]
    · rw [if_pos h, negWrap_eq_neg cy (by simpa [intMin] using hy1) (by omega),
        abs_of_neg h]
  simp only [BitPlane.ofBuffer, hax, hay]
  constructor
  · intro h0
    rw [if_neg]
    rintro ⟨hx, hy⟩
    rcases h0 with h0 | h0 <;> omega
  · intro hx hy
    rw [if_pos ⟨hx, hy⟩, scanBytesOf_eq_ceil _ (abs_nonneg cx)]

theorem claim_C8_witness :
    BitPlane.ofBuffer 0 5 42 =
      { width := 0, height := 0, widthScanBytes := 0, store := 42, autoDelete := false } ∧
    BitPlane.ofBuffer (-17) 2 9 =
      { width := 17, height := 2, widthScanBytes := 3, store := 9, autoDelete := false } := by
  constructor
  · exact (claim_C8 0 5 42 (by decide) (by decide) (by decide) (by decide)).1 (Or.inl (by decide))
  · have h := (claim_C8 (-17) 2 9 (by decide) (by decide) (by decide) (by decide)).2
      (by decide) (by decide)
    rw [h]
    decide

/-! ### Claims about the fetcher and the raster-operation table -/

/-- Claim C5: for the `RightShift` fetcher with shift count `k` in `1..7`,
any cursor and carry: `fetch` returns
`(carry << (8 - k)) | (byteAtCursor >> k)` in 8-bit arithmetic, advances the
cursor by exactly one byte, and makes the byte just read the new carry; a
freshly constructed `RightShift` has carry 0, and `prefetch` is a no-op. -/
theorem claim_C5 (m : Mem) (st : Int) (carry : Nat) (k : Int)
    (h1 : 1 ≤ k) (h7 : k ≤ 7) :
    (PhaseAlign.fetch m ⟨.rightShift, st, carry, k⟩).1
        = ((carry <<< (8 - k).toNat) ||| (readMem m st >>> k.toNat)) % 256 ∧
    (PhaseAlign.fetch m ⟨.rightShift, st, carry, k⟩).2
        = ⟨.rightShift, st + 1, readMem m st, k⟩ ∧
    PhaseAlign.prefetch m ⟨.rightShift, st, carry, k⟩ = ⟨.rightShift, st, carry, k⟩ ∧
    (RightShift.make k).carry = 0 :=
  ⟨rfl, rfl, rfl, rfl⟩

theorem claim_C5_witness :
    (PhaseAlign.fetch (fun _ => 0xab) ⟨.rightShift, 5, 0xcd, 3⟩).1 = 0xb5 := by
  have h := (claim_C5 (fun _ => 0xab) 5 0xcd 3 (by decide) (by decide)).1
  rw [h]
  decide

/-- Claim C3: an operation's reverse-Polish definition references `S` exactly
for the twelve codes outside `{rop0, ropDn, ropD, rop1}` (indices 0, 5, 10,
15); `fetchLogic` applies `fetch` to the bound fetcher exactly when the
definition references `S`, and otherwise both forms of `fetchLogicStore`
leave the fetcher's cursor and carry state untouched. -/
theorem claim_C3 (m : Mem) (b : Blt) (mask : Nat) :
    (b.rop.hasS = false ↔
      (b.rop = .rop0 ∨ b.rop = .ropDn ∨ b.rop = .ropD ∨ b.rop = .rop1)) ∧
    ((b.fetchLogic m).2.phaseAlign =
      if b.rop.hasS then (b.phaseAlign.fetch m).2 else b.phaseAlign) ∧
    (b.rop.hasS = false →
      (b.fetchLogicStore m mask).2.phaseAlign = b.phaseAlign ∧
      (b.fetchLogicStoreFull m).2.phaseAlign = b.phaseAlign) := by
  obtain ⟨rop, pa, st⟩ := b
  cases rop <;>
    simp [Blt.fetchLogic, Blt.fetchLogicStore, Blt.fetchLogicStoreFull, Rop2.hasS]

theorem claim_C3_witness :
    (Blt.fetchLogicStore (fun _ => 3) ⟨.ropDn, ⟨.rightShift, 9, 7, 2⟩, 4⟩ 0xf0).2.phaseAlign
      = ⟨.rightShift, 9, 7, 2⟩ :=
  ((claim_C3 (fun _ => 3) ⟨.ropDn, ⟨.rightShift, 9, 7, 2⟩, 4⟩ 0xf0).2.2 (by decide)).1

/-! ### Claims about clipping -/

/-- Claim C4: after extent normalisation, the horizontal origin-clipping
offset computed by the conditional chain equals `max(0, -x, -xSrc)`; when it
is at least `cx` the blit returns failure with the memory untouched, and
otherwise the blit continues with `x`, `xSrc` increased by the offset and
`cx` decreased by it (the remaining pipeline applied to the offset values). -/
theorem claim_C4 (x xSrc : Int) :
    clipOffset x xSrc = max 0 (max (-x) (-xSrc)) ∧
    (∀ (m : Mem) (dst src : BitPlane) (y cy ySrc : Int) (rop : Rop2) (cx : Int),
      0 ≤ cx → cx ≤ clipOffset x xSrc →
      bitBlt m dst src x y cx cy xSrc ySrc rop = (false, m)) ∧
    (∀ (m : Mem) (dst src : BitPlane) (y cy ySrc : Int) (rop : Rop2) (cx : Int),
      0 ≤ cx → 0 ≤ cy → clipOffset x xSrc < cx →
      bitBlt m dst src x y cx cy xSrc ySrc rop =
        (match clipXMax dst src (x + clipOffset x xSrc) y (cx - clipOffset x xSrc) cy
            (xSrc + clipOffset x xSrc) ySrc with
         | none => (false, m)
         | some (a, b, c, d, e, f) =>
             bitBltBody m dst src a.toNat b.toNat c.toNat d.toNat e.toNat f.toNat rop)) := by
  refine ⟨?_, ?_, ?_⟩
  · rw [max_def, max_def]
    unfold clipOffset
    split_ifs <;> omega
  · intro m dst src y cy ySrc rop cx hcx hle
    simp only [bitBlt, clipAll, clipRect, if_neg (not_lt.2 hcx)]
    rw [if_pos hle]
  · intro m dst src y cy ySrc rop cx hcx hcy hlt
    simp only [bitBlt, clipAll, clipRect, if_neg (not_lt.2 hcx), if_neg (not_lt.2 hcy)]
    rw [if_neg (not_le.2 hlt)]

theorem claim_C4_witness :
    clipOffset (-3) (-5) = max 0 (max 3 5) ∧
    bitBlt (fun _ => 7) BitPlane.empty BitPlane.empty (-3) 2 4 5 (-5) 6 Rop2.ropS
      = (false, fun _ => 7) :=
  ⟨(claim_C4 (-3) (-5)).1,
    (claim_C4 (-3) (-5)).2.1 (fun _ => 7) BitPlane.empty BitPlane.empty 2 5 6 Rop2.ropS 4
      (by decide) (by decide)⟩

/-! ### Claim C6: the phase-shift-by-one scenario -/

/-- Claim C6: blitting the 16-by-1 rectangle with `srcCopy` from
`(xSrc, ySrc) = (0, 0)` to `(x, y) = (1, 0)` succeeds and leaves the
destination row's three bytes equal to `0x7F 0x80 0x00`. -/
theorem claim_C6 :
    (bitBlt memC6 dstC6 srcC6 1 0 16 1 0 0 Rop2.srcCopy).1 = true ∧
    (bitBlt memC6 dstC6 srcC6 1 0 16 1 0 0 Rop2.srcCopy).2 0 = 0x7f ∧
    (bitBlt memC6 dstC6 srcC6 1 0 16 1 0 0 Rop2.srcCopy).2 1 = 0x80 ∧
    (bitBlt memC6 dstC6 srcC6 1 0 16 1 0 0 Rop2.srcCopy).2 2 = 0x00 := by
  refine ⟨by decide, by decide, by decide, by decide⟩

/-! ### Memory-effect lemmas for the blit inner loop -/

theorem readMem_lt (m : Mem) (a : Int) : readMem m a < 256 :=
  Nat.mod_lt _ (by omega)

theorem writeMem_ne (m : Mem) (a : Int) (v : Nat) {b : Int} (h : b ≠ a) :
    writeMem m a v b = m b := by
  simp [writeMem, h]

theorem readMem_writeMem_ne (m : Mem) (a : Int) (v : Nat) {b : Int} (h : b ≠ a) :
    readMem (writeMem m a v) b = readMem m b := by
  simp [readMem, writeMem, h]

theorem readMem_writeMem_self (m : Mem) (a : Int) (v : Nat) :
    readMem (writeMem m a v) a = v % 256 := by
  simp [readMem, writeMem]

theorem maskMerge_testBit (d mask v : Nat) {p : Nat} (hp : p < 8)
    (hm : mask.testBit p = false) :
    (((d &&& (mask ^^^ 255)) ||| (mask &&& v)) % 256).testBit p = d.testBit p := by
  have h256 : (256 : Nat) = 2 ^ 8 := rfl
  have h255 : (255 : Nat) = 2 ^ 8 - 1 := rfl
  rw [h256, Nat.testBit_mod_two_pow, Nat.testBit_lor, Nat.testBit_land, Nat.testBit_land,
    Nat.testBit_xor, hm, h255, Nat.testBit_two_pow_sub_one]
  simp [hp]

theorem Blt.fetchLogic_snd_store (m : Mem) (b : Blt) :
    ((b.fetchLogic m).2).store = b.store := by
  obtain ⟨rop, pa, st⟩ := b
  cases rop <;> rfl

theorem Blt.fetchLogic_snd_rop (m : Mem) (b : Blt) :
    ((b.fetchLogic m).2).rop = b.rop := by
  obtain ⟨rop, pa, st⟩ := b
  cases rop <;> rfl

theorem Blt.fetchLogicStore_fst_ne (m : Mem) (b : Blt) (mask : Nat) {a : Int}
    (h : a ≠ b.store) :
    (b.fetchLogicStore m mask).1 a = m a :=
  writeMem_ne _ _ _ h

theorem Blt.fetchLogicStore_snd_store (m : Mem) (b : Blt) (mask : Nat) :
    (b.fetchLogicStore m mask).2.store = b.store + 1 := by
  show ((b.fetchLogic m).2).store + 1 = b.store + 1
  rw [Blt.fetchLogic_snd_store]

theorem Blt.fetchLogicStore_testBit (m : Mem) (b : Blt) (mask : Nat) {p : Nat}
    (hp : p < 8) (hm : mask.testBit p = false) :
    (readMem ((b.fetchLogicStore m mask).1) b.store).testBit p
      = (readMem m b.store).testBit p := by
  show (readMem (writeMem m b.store _) b.store).testBit p = _
  rw [readMem_writeMem_self]
  exact maskMerge_testBit _ _ _ hp hm

theorem Blt.fetchLogicStoreFull_fst_ne (m : Mem) (b : Blt) {a : Int}
    (h : a ≠ b.store) :
    (b.fetchLogicStoreFull m).1 a = m a :=
  writeMem_ne _ _ _ h

theorem Blt.fetchLogicStoreFull_snd_store (m : Mem) (b : Blt) :
    (b.fetchLogicStoreFull m).2.store = b.store + 1 := by
  show ((b.fetchLogic m).2).store + 1 = b.store + 1
  rw [Blt.fetchLogic_snd_store]

theorem middleStores_fst_ne :
    ∀ (n : Nat) (m : Mem) (b : Blt) {a : Int},
      (∀ t : Nat, t < n → a ≠ b.store + t) → (middleStores m b n).1 a = m a := by
  intro n
  induction n with
  | zero => intro m b a _; rfl
  | succ n ih =>
      intro m b a h
      have hb0 : a ≠ b.store := by simpa using h 0 (by omega)
      have hrest : ∀ t : Nat, t < n → a ≠ (b.fetchLogicStoreFull m).2.store + t := by
        intro t ht
        rw [Blt.fetchLogicStoreFull_snd_store]
        have := h (t + 1) (by omega)
        push_cast at this ⊢
        omega
      show (middleStores (b.fetchLogicStoreFull m).1 (b.fetchLogicStoreFull m).2 n).1 a = m a
      rw [ih _ _ hrest]
      exact Blt.fetchLogicStoreFull_fst_ne m b hb0

theorem middleStores_snd_store :
    ∀ (n : Nat) (m : Mem) (b : Blt),
      (middleStores m b n).2.store = b.store + n := by
  intro n
  induction n with
  | zero => intro m b; simp [middleStores]
  | succ n ih =>
      intro m b
      show (middleStores (b.fetchLogicStoreFull m).1 (b.fetchLogicStoreFull m).2 n).2.store = _
      rw [ih, Blt.fetchLogicStoreFull_snd_store]
      push_cast
      ring

theorem bltRow_fst_ne (m : Mem) (b : Blt) (extra orgMask extMask : Nat) {a : Int}
    (h : ∀ t : Nat, t ≤ extra → a ≠ b.store + t) :
    (bltRow m b extra orgMask extMask).1 a = m a := by
  have hb0 : a ≠ b.store := by simpa using h 0 (by omega)
  unfold bltRow
  by_cases hex : extra = 0
  · rw [if_pos hex]
    exact Blt.fetchLogicStore_fst_ne _ _ _ hb0
  · rw [if_neg hex]
    have e1 := Blt.fetchLogicStore_fst_ne
      (a := a) m { b with phaseAlign := b.phaseAlign.prefetch m } orgMask hb0
    have c1 : (Blt.fetchLogicStore m { b with phaseAlign := b.phaseAlign.prefetch m }
        orgMask).2.store = b.store + 1 :=
      Blt.fetchLogicStore_snd_store m _ orgMask
    have h2 : ∀ t : Nat, t < extra - 1 →
        a ≠ (Blt.fetchLogicStore m { b with phaseAlign := b.phaseAlign.prefetch m }
          orgMask).2.store + t := by
      intro t ht
      rw [c1]
      have := h (t + 1) (by omega)
      push_cast at this ⊢
      omega
    have e2 := middleStores_fst_ne (extra - 1)
      ((Blt.fetchLogicStore m { b with phaseAlign := b.phaseAlign.prefetch m } orgMask).1)
      ((Blt.fetchLogicStore m { b with phaseAlign := b.phaseAlign.prefetch m } orgMask).2) h2
    have c2 : (middleStores
        ((Blt.fetchLogicStore m { b with phaseAlign := b.phaseAlign.prefetch m } orgMask).1)
        ((Blt.fetchLogicStore m { b with phaseAlign := b.phaseAlign.prefetch m } orgMask).2)
        (extra - 1)).2.store = b.store + extra := by
      rw [middleStores_snd_store, c1]
      push_cast
      omega
    have hbe : a ≠ b.store + extra := by
      have := h extra (by omega)
      push_cast at this ⊢
      omega
    have e3 := Blt.fetchLogicStore_fst_ne
      (a := a)
      ((middleStores
        ((Blt.fetchLogicStore m { b with phaseAlign := b.phaseAlign.prefetch m } orgMask).1)
        ((Blt.fetchLogicStore m { b with phaseAlign := b.phaseAlign.prefetch m } orgMask).2)
        (extra - 1)).1)
      ((middleStores
        ((Blt.fetchLogicStore m { b with phaseAlign := b.phaseAlign.prefetch m } orgMask).1)
        ((Blt.fetchLogicStore m { b with phaseAlign := b.phaseAlign.prefetch m } orgMask).2)
        (extra - 1)).2)
      extMask (by rw [c2]; exact hbe)
    rw [e3, e2, e1]

theorem bltRow_snd_store (m : Mem) (b : Blt) (extra orgMask extMask : Nat) :
    (bltRow m b extra orgMask extMask).2.store = b.store + extra + 1 := by
  unfold bltRow
  by_cases hex : extra = 0
  · rw [if_pos hex, Blt.fetchLogicStore_snd_store]
    subst hex
    push_cast
    ring
  · rw [if_neg hex, Blt.fetchLogicStore_snd_store, middleStores_snd_store,
      Blt.fetchLogicStore_snd_store]
    show b.store + 1 + ((extra - 1 : Nat) : Int) + 1 = b.store + (extra : Int) + 1
    omega

theorem readMem_congr {m m' : Mem} {a : Int} (h : m' a = m a) :
    readMem m' a = readMem m a := by
  unfold readMem
  rw [h]

theorem testBit_255 {p : Nat} (hp : p < 8) : (255 : Nat).testBit p = true := by
  have h255 : (255 : Nat) = 2 ^ 8 - 1 := rfl
  rw [h255, Nat.testBit_two_pow_sub_one]
  simpa using hp

theorem bltRow_testBit (m : Mem) (b : Blt) (extra orgMask extMask : Nat) {a : Int}
    {p : Nat} (hp : p < 8)
    (h : ∀ t : Nat, t ≤ extra → a = b.store + t →
      (rowMaskAt extra orgMask extMask t).testBit p = false) :
    (readMem ((bltRow m b extra orgMask extMask).1) a).testBit p
      = (readMem m a).testBit p := by
  by_cases hmem : ∀ t : Nat, t ≤ extra → a ≠ b.store + t
  · rw [readMem_congr (bltRow_fst_ne m b extra orgMask extMask hmem)]
  · push_neg at hmem
    obtain ⟨t, ht, heq⟩ := hmem
    by_cases hex : extra = 0
    · subst hex
      have ht0 : t = 0 := by omega
      subst ht0
      have hmask := h 0 (by omega) heq
      have heq0 : a = b.store := by simpa using heq
      subst heq0
      unfold bltRow
      rw [if_pos rfl]
      exact Blt.fetchLogicStore_testBit m _ _ hp (by simpa [rowMaskAt] using hmask)
    · have hmask := h t ht heq
      unfold bltRow
      rw [if_neg hex]
      have c1 : (Blt.fetchLogicStore m { b with phaseAlign := b.phaseAlign.prefetch m }
          orgMask).2.store = b.store + 1 :=
        Blt.fetchLogicStore_snd_store m _ orgMask
      have c2 : (middleStores
          ((Blt.fetchLogicStore m { b with phaseAlign := b.phaseAlign.prefetch m } orgMask).1)
          ((Blt.fetchLogicStore m { b with phaseAlign := b.phaseAlign.prefetch m } orgMask).2)
          (extra - 1)).2.store = b.store + extra := by
        rw [middleStores_snd_store, c1]
        omega
      rcases Nat.lt_trichotomy t 0 with h0 | h0 | h0
      · omega
      · -- t = 0: the origin-masked store writes this byte; later stores miss it.
        subst h0
        have heq0 : a = b.store := by simpa using heq
        subst heq0
        have hm0 : (rowMaskAt extra orgMask extMask 0).testBit p = false := hmask
        rw [readMem_congr (Blt.fetchLogicStore_fst_ne _ _ extMask
          (by rw [c2]; intro hc; omega))]
        rw [readMem_congr (middleStores_fst_ne (extra - 1) _ _ ?_)]
        · exact Blt.fetchLogicStore_testBit m _ orgMask hp
            (by simpa [rowMaskAt, hex] using hm0)
        · intro t' ht'
          rw [c1]
          intro hc
          omega
      · rcases Nat.lt_trichotomy t extra with h1 | h1 | h1
        · -- 0 < t < extra: the middle mask is all ones, so the outside
          -- hypothesis is contradictory.
          have : (rowMaskAt extra orgMask extMask t).testBit p = true := by
            simp only [rowMaskAt, if_neg hex, if_neg (by omega : ¬t = 0),
              if_neg (by omega : ¬t = extra)]
            exact testBit_255 hp
          rw [this] at hmask
          cases hmask
        · -- t = extra: the extent-masked store writes this byte.
          rw [h1] at heq hmask
          subst heq
          have hmE : (rowMaskAt extra orgMask extMask extra).testBit p = false := hmask
          have e3 := Blt.fetchLogicStore_testBit
            ((middleStores
              ((Blt.fetchLogicStore m { b with phaseAlign := b.phaseAlign.prefetch m }
                orgMask).1)
              ((Blt.fetchLogicStore m { b with phaseAlign := b.phaseAlign.prefetch m }
                orgMask).2)
              (extra - 1)).1)
            ((middleStores
              ((Blt.fetchLogicStore m { b with phaseAlign := b.phaseAlign.prefetch m }
                orgMask).1)
              ((Blt.fetchLogicStore m { b with phaseAlign := b.phaseAlign.prefetch m }
                orgMask).2)
              (extra - 1)).2)
            extMask hp (by simpa [rowMaskAt, hex] using hmE)
          rw [c2] at e3
          rw [e3]
          rw [readMem_congr (middleStores_fst_ne (extra - 1) _ _ ?_)]
          · rw [readMem_congr (Blt.fetchLogicStore_fst_ne _ _ orgMask
              (by show b.store + (extra : Int) ≠ b.store; omega))]
          · intro t' ht'
            rw [c1]
            intro hc
            omega
        · omega

theorem bltRows_fst_ne (extra orgMask extMask : Nat) (displace displaceSrc : Int) :
    ∀ (n : Nat) (m : Mem) (b : Blt) {a : Int},
      (∀ i : Nat, i < n → ∀ t : Nat, t ≤ extra →
        a ≠ b.store + ((extra : Int) + 1 + displace) * i + t) →
      (bltRows m b extra orgMask extMask displace displaceSrc n).1 a = m a := by
  intro n
  induction n with
  | zero => intro m b a _; rfl
  | succ n ih =>
      intro m b a h
      show (bltRows (bltRow m b extra orgMask extMask).1
        { (bltRow m b extra orgMask extMask).2 with
            store := (bltRow m b extra orgMask extMask).2.store + displace,
            phaseAlign := { (bltRow m b extra orgMask extMask).2.phaseAlign with
              store := (bltRow m b extra orgMask extMask).2.phaseAlign.store
                + displaceSrc } }
        extra orgMask extMask displace displaceSrc n).1 a = m a
      rw [ih _ _ ?_, bltRow_fst_ne m b extra orgMask extMask ?_]
      · intro t ht
        have hh := h 0 (by omega) t ht
        simpa using hh
      · intro i hi t ht
        have hh := h (i + 1) (by omega) t ht
        have hst : (bltRow m b extra orgMask extMask).2.store + displace
            = b.store + ((extra : Int) + 1 + displace) := by
          rw [bltRow_snd_store]
          ring
        show a ≠ ({ (bltRow m b extra orgMask extMask).2 with
            store := (bltRow m b extra orgMask extMask).2.store + displace,
            phaseAlign := { (bltRow m b extra orgMask extMask).2.phaseAlign with
              store := (bltRow m b extra orgMask extMask).2.phaseAlign.store
                + displaceSrc } }).store + ((extra : Int) + 1 + displace) * i + t
        show a ≠ (bltRow m b extra orgMask extMask).2.store + displace
          + ((extra : Int) + 1 + displace) * i + t
        rw [hst]
        intro heqa
        apply hh
        rw [heqa]
        push_cast
        ring

theorem bltRows_testBit (extra orgMask extMask : Nat) (displace displaceSrc : Int)
    {p : Nat} (hp : p < 8) :
    ∀ (n : Nat) (m : Mem) (b : Blt) {a : Int},
      (∀ i : Nat, i < n → ∀ t : Nat, t ≤ extra →
        a = b.store + ((extra : Int) + 1 + displace) * i + t →
        (rowMaskAt extra orgMask extMask t).testBit p = false) →
      (readMem ((bltRows m b extra orgMask extMask displace displaceSrc n).1) a).testBit p
        = (readMem m a).testBit p := by
  intro n
  induction n with
  | zero => intro m b a _; rfl
  | succ n ih =>
      intro m b a h
      show (readMem ((bltRows (bltRow m b extra orgMask extMask).1
        { (bltRow m b extra orgMask extMask).2 with
            store := (bltRow m b extra orgMask extMask).2.store + displace,
            phaseAlign := { (bltRow m b extra orgMask extMask).2.phaseAlign with
              store := (bltRow m b extra orgMask extMask).2.phaseAlign.store
                + displaceSrc } }
        extra orgMask extMask displace displaceSrc n).1) a).testBit p
        = (readMem m a).testBit p
      rw [ih _ _ ?_, bltRow_testBit m b extra orgMask extMask hp ?_]
      · intro t ht heqa
        exact h 0 (by omega) t ht (by rw [heqa]; push_cast; ring)
      · intro i hi t ht
        have hst : (bltRow m b extra orgMask extMask).2.store + displace
            = b.store + ((extra : Int) + 1 + displace) := by
          rw [bltRow_snd_store]
          ring
        show a = ({ (bltRow m b extra orgMask extMask).2 with
            store := (bltRow m b extra orgMask extMask).2.store + displace,
            phaseAlign := { (bltRow m b extra orgMask extMask).2.phaseAlign with
              store := (bltRow m b extra orgMask extMask).2.phaseAlign.store
                + displaceSrc } }).store + ((extra : Int) + 1 + displace) * i + t → _
        show a = (bltRow m b extra orgMask extMask).2.store + displace
          + ((extra : Int) + 1 + displace) * i + t → _
        rw [hst]
        intro heqa
        exact h (i + 1) (by omega) t ht (by rw [heqa]; push_cast; ring)

/-! ### Soundness of the clipping pipeline -/

theorem clipOffset_bounds (o oSrc : Int) :
    0 ≤ clipOffset o oSrc ∧ -o ≤ clipOffset o oSrc ∧ -oSrc ≤ clipOffset o oSrc := by
  unfold clipOffset
  split_ifs <;> omega

theorem clipY_sound {dst src : BitPlane} {x y cx cy xSrc ySrc X Y CX CY XS YS : Int}
    (h : clipY dst src x y cx cy xSrc ySrc = some (X, Y, CX, CY, XS, YS)) :
    X = x ∧ CX = cx ∧ XS = xSrc ∧
    0 ≤ Y ∧ 0 < CY ∧ Y + CY ≤ dst.height ∧ 0 ≤ YS ∧ YS + CY ≤ src.height := by
  have hb := clipOffset_bounds y ySrc
  simp only [clipY] at h
  split_ifs at h <;>
    first
      | exact Option.noConfusion h
      | (simp only [Option.some.injEq, Prod.mk.injEq] at h; omega)

theorem clipXMax_sound {dst src : BitPlane} {x y cx cy xSrc ySrc X Y CX CY XS YS : Int}
    (hx : 0 ≤ x) (hxs : 0 ≤ xSrc) (hcx : 0 < cx)
    (h : clipXMax dst src x y cx cy xSrc ySrc = some (X, Y, CX, CY, XS, YS)) :
    0 ≤ X ∧ 0 < CX ∧ X + CX ≤ dst.width ∧ 0 ≤ XS ∧ XS + CX ≤ src.width ∧
    0 ≤ Y ∧ 0 < CY ∧ Y + CY ≤ dst.height ∧ 0 ≤ YS ∧ YS + CY ≤ src.height := by
  simp only [clipXMax] at h
  split_ifs at h <;>
    first
      | exact Option.noConfusion h
      | (have hs := clipY_sound h; omega)

theorem clipRect_sound {dst src : BitPlane} {x y cx cy xSrc ySrc X Y CX CY XS YS : Int}
    (h : clipRect dst src x y cx cy xSrc ySrc = some (X, Y, CX, CY, XS, YS)) :
    0 ≤ X ∧ 0 < CX ∧ X + CX ≤ dst.width ∧ 0 ≤ XS ∧ XS + CX ≤ src.width ∧
    0 ≤ Y ∧ 0 < CY ∧ Y + CY ≤ dst.height ∧ 0 ≤ YS ∧ YS + CY ≤ src.height := by
  have hb := clipOffset_bounds x xSrc
  simp only [clipRect] at h
  split_ifs at h <;>
    first
      | exact Option.noConfusion h
      | exact clipXMax_sound (by omega) (by omega) (by omega) h

theorem clipAll_sound {dst src : BitPlane} {x y cx cy xSrc ySrc X Y CX CY XS YS : Int}
    (h : clipAll dst src x y cx cy xSrc ySrc = some (X, Y, CX, CY, XS, YS)) :
    0 ≤ X ∧ 0 < CX ∧ X + CX ≤ dst.width ∧ 0 ≤ XS ∧ XS + CX ≤ src.width ∧
    0 ≤ Y ∧ 0 < CY ∧ Y + CY ≤ dst.height ∧ 0 ≤ YS ∧ YS + CY ≤ src.height := by
  simp only [clipAll] at h
  split_ifs at h <;> exact clipRect_sound h

theorem bitBlt_eq_none {m : Mem} {dst src : BitPlane} {x y cx cy xSrc ySrc : Int}
    {rop : Rop2} (h : clipAll dst src x y cx cy xSrc ySrc = none) :
    bitBlt m dst src x y cx cy xSrc ySrc rop = (false, m) := by
  unfold bitBlt
  rw [h]

theorem bitBlt_eq_some {m : Mem} {dst src : BitPlane} {x y cx cy xSrc ySrc : Int}
    {rop : Rop2} {X Y CX CY XS YS : Int}
    (h : clipAll dst src x y cx cy xSrc ySrc = some (X, Y, CX, CY, XS, YS)) :
    bitBlt m dst src x y cx cy xSrc ySrc rop
      = bitBltBody m dst src X.toNat Y.toNat CX.toNat CY.toNat XS.toNat YS.toNat rop := by
  unfold bitBlt
  rw [h]

/-! ### Claim C1: the frame property of the binary blit -/

theorem euclid_unique {w q1 r1 q2 r2 : Int} (hw : 0 < w)
    (ha : 0 ≤ r1) (hb : r1 < w) (hc : 0 ≤ r2) (hd : r2 < w)
    (h : w * q1 + r1 = w * q2 + r2) : q1 = q2 ∧ r1 = r2 := by
  have k1 : (w * q1 + r1) / w = q1 ∧ (w * q1 + r1) % w = r1 :=
    (Int.ediv_emod_unique hw).2 ⟨by ring, ha, hb⟩
  have k2 : (w * q1 + r1) / w = q2 ∧ (w * q1 + r1) % w = r2 :=
    (Int.ediv_emod_unique hw).2 ⟨by rw [h]; ring, hc, hd⟩
  exact ⟨k1.1.symm.trans k2.1, k1.2.symm.trans k2.2⟩

theorem orgMask_testBit_false {s p : Nat} (h : 8 ≤ p + s) :
    ((0xff : Nat) >>> s).testBit p = false := by
  rw [Nat.testBit_shiftRight]
  apply Nat.testBit_eq_false_of_lt
  calc (0xff : Nat) < 2 ^ 8 := by omega
    _ ≤ 2 ^ (s + p) := Nat.pow_le_pow_right (by omega) (by omega)

theorem extMask_testBit_false {e p : Nat} (hp : p < e) :
    (((0xff : Nat) <<< e) % 256).testBit p = false := by
  have h256 : (256 : Nat) = 2 ^ 8 := rfl
  rw [h256, Nat.testBit_mod_two_pow, Nat.testBit_shiftLeft]
  simp [Nat.not_le.2 hp]

/-- Bit preservation for the body of the blit, under the hypothesis that
every inner-loop write that could land on the address has a mask whose bit
`p` is clear. -/
theorem bitBltBody_testBit (m : Mem) (dst src : BitPlane)
    (x y cx cy xSrc ySrc : Nat) (rop : Rop2) {a : Int} {p : Nat} (hp : p < 8)
    (h : ∀ i : Nat, i < cy → ∀ t : Nat, t ≤ (x + cx - 1) / 8 - x / 8 →
      a = dst.findBits (x : Int) (y : Int)
        + ((((x + cx - 1) / 8 - x / 8 : Nat) : Int) + 1
            + (dst.widthScanBytes - 1 - (((x + cx - 1) / 8 - x / 8 : Nat) : Int))) * i + t →
      (rowMaskAt ((x + cx - 1) / 8 - x / 8) (0xff >>> (x % 8))
        ((0xff <<< (7 - (x + cx - 1) % 8)) % 256) t).testBit p = false) :
    (readMem ((bitBltBody m dst src x y cx cy xSrc ySrc rop).2) a).testBit p
      = (readMem m a).testBit p :=
  bltRows_testBit _ _ _ _ _ hp cy m _ h

/-- Raw byte preservation for the body of the blit at addresses no
inner-loop write can reach. -/
theorem bitBltBody_fst_ne (m : Mem) (dst src : BitPlane)
    (x y cx cy xSrc ySrc : Nat) (rop : Rop2) {a : Int}
    (h : ∀ i : Nat, i < cy → ∀ t : Nat, t ≤ (x + cx - 1) / 8 - x / 8 →
      a ≠ dst.findBits (x : Int) (y : Int)
        + ((((x + cx - 1) / 8 - x / 8 : Nat) : Int) + 1
            + (dst.widthScanBytes - 1 - (((x + cx - 1) / 8 - x / 8 : Nat) : Int))) * i + t) :
    (bitBltBody m dst src x y cx cy xSrc ySrc rop).2 a = m a :=
  bltRows_fst_ne _ _ _ _ _ cy m _ h

/-- Claim C1: for every call to the binary `bitBlt` on a well-formed
destination plane, every destination bit outside the clipped destination
rectangle has the same value after the call as before; in particular, when
the call returns false (empty intersection) the destination memory is
entirely unchanged. -/
theorem claim_C1 (m : Mem) (dst src : BitPlane) (x y cx cy xSrc ySrc : Int)
    (rop : Rop2) (hwf : dst.wf) :
    ((bitBlt m dst src x y cx cy xSrc ySrc rop).1 = false →
      (bitBlt m dst src x y cx cy xSrc ySrc rop).2 = m) ∧
    (∀ X Y CX CY XS YS : Int,
      clipAll dst src x y cx cy xSrc ySrc = some (X, Y, CX, CY, XS, YS) →
      ∀ px py : Nat, (py : Int) < dst.height →
        (px : Int) < 8 * dst.widthScanBytes →
        ((px : Int) < X ∨ X + CX ≤ (px : Int) ∨ (py : Int) < Y ∨ Y + CY ≤ (py : Int)) →
        bitAt (bitBlt m dst src x y cx cy xSrc ySrc rop).2 dst px py
          = bitAt m dst px py) := by
  constructor
  · intro hf
    rcases hC : clipAll dst src x y cx cy xSrc ySrc with _ | ⟨X, Y, CX, CY, XS, YS⟩
    · rw [bitBlt_eq_none hC]
    · rw [bitBlt_eq_some hC] at hf
      exact absurd hf (by simp [bitBltBody])
  · intro X Y CX CY XS YS hC px py hpy hpx houts
    obtain ⟨hX0, hCX, hXW, hXS0, hXSW, hY0, hCY, hYH, hYS0, hYSH⟩ := clipAll_sound hC
    obtain ⟨hw0, hh0, hwsb_or⟩ := hwf
    have hwpos : 0 < dst.width := by omega
    have hwsb : dst.widthScanBytes = (dst.width + 7) / 8 := by
      rcases hwsb_or with h | h | h
      · omega
      · omega
      · exact h
    have hXn : ((X.toNat : Int)) = X := Int.toNat_of_nonneg hX0
    have hYn : ((Y.toNat : Int)) = Y := Int.toNat_of_nonneg hY0
    have hCXn : ((CX.toNat : Int)) = CX := Int.toNat_of_nonneg (by omega)
    have hCYn : ((CY.toNat : Int)) = CY := Int.toNat_of_nonneg (by omega)
    have hwsbpos : 0 < dst.widthScanBytes := by omega
    rw [bitBlt_eq_some hC]
    unfold bitAt
    apply bitBltBody_testBit m dst src X.toNat Y.toNat CX.toNat CY.toNat
      XS.toNat YS.toNat rop (by omega : 7 - px % 8 < 8)
    intro i hi t ht heq
    -- Normalise the stride to the destination scan-line width.
    rw [show ((((X.toNat + CX.toNat - 1) / 8 - X.toNat / 8 : Nat) : Int) + 1
        + (dst.widthScanBytes - 1 - (((X.toNat + CX.toNat - 1) / 8 - X.toNat / 8
            : Nat) : Int))) = dst.widthScanBytes from by ring] at heq
    unfold BitPlane.pixAddr BitPlane.findBits at heq
    -- Unique Euclidean decomposition of the touched address.
    have hkey : dst.widthScanBytes * (py : Int) + ((px / 8 : Nat) : Int)
        = dst.widthScanBytes * ((Y.toNat : Int) + (i : Nat))
          + (((X.toNat : Int)) / 8 + (t : Nat)) := by
      linear_combination heq
    have hr1a : (0 : Int) ≤ ((px / 8 : Nat) : Int) := by positivity
    have hr1b : ((px / 8 : Nat) : Int) < dst.widthScanBytes := by omega
    have hr2a : (0 : Int) ≤ ((X.toNat : Int)) / 8 + (t : Nat) := by
      have : (0 : Int) ≤ ((X.toNat : Int)) / 8 := by positivity
      omega
    have hr2b : ((X.toNat : Int)) / 8 + (t : Nat) < dst.widthScanBytes := by omega
    obtain ⟨hq, hr⟩ := euclid_unique hwsbpos hr1a hr1b hr2a hr2b hkey
    -- Convert to natural-number facts.
    have hpyn : py = Y.toNat + i := by omega
    have hdiv : px / 8 = X.toNat / 8 + t := by omega
    have hhoriz : px < X.toNat ∨ X.toNat + CX.toNat ≤ px := by
      rcases houts with h | h | h | h
      · left; omega
      · right; omega
      · omega
      · omega
    by_cases hex : (X.toNat + CX.toNat - 1) / 8 - X.toNat / 8 = 0
    · have ht0 : t = 0 := by omega
      subst ht0
      rw [rowMaskAt, if_pos hex, Nat.testBit_land]
      rcases hhoriz with h | h
      · rw [orgMask_testBit_false (by omega)]
        rfl
      · rw [extMask_testBit_false (by omega)]
        exact Bool.and_false _
    · rcases Nat.lt_trichotomy t 0 with h0 | h0 | h0
      · omega
      · subst h0
        rcases hhoriz with h | h
        · rw [rowMaskAt, if_neg hex, if_pos rfl]
          exact orgMask_testBit_false (by omega)
        · exfalso
          omega
      · rcases Nat.lt_trichotomy t ((X.toNat + CX.toNat - 1) / 8 - X.toNat / 8)
          with h1 | h1 | h1
        · exfalso
          rcases hhoriz with h | h <;> omega
        · rw [rowMaskAt, if_neg hex, if_neg (by omega), if_pos h1]
          rcases hhoriz with h | h
          · exfalso
            omega
          · exact extMask_testBit_false (by omega)
        · omega

theorem claim_C1_witness :
    bitAt (bitBlt memW dstW srcW 1 0 4 1 0 0 Rop2.srcCopy).2 dstW 7 0
      = bitAt memW dstW 7 0 ∧
    bitAt (bitBlt memW dstW srcW 1 0 4 1 0 0 Rop2.srcCopy).2 dstW 0 0
      = bitAt memW dstW 0 0 ∧
    (bitBlt memW dstW srcW 100 100 4 1 0 0 Rop2.srcCopy).2 = memW := by
  have hwf : dstW.wf := by
    unfold BitPlane.wf
    decide
  refine ⟨?_, ?_, ?_⟩
  · exact (claim_C1 memW dstW srcW 1 0 4 1 0 0 Rop2.srcCopy hwf).2
      1 0 4 1 0 0 (by decide) 7 0 (by decide) (by decide) (by decide)
  · exact (claim_C1 memW dstW srcW 1 0 4 1 0 0 Rop2.srcCopy hwf).2
      1 0 4 1 0 0 (by decide) 0 0 (by decide) (by decide) (by decide)
  · exact (claim_C1 memW dstW srcW 100 100 4 1 0 0 Rop2.srcCopy hwf).1
      (by decide)

/-! ### Claim C9: the source plane is read-only for the blit -/

/-- Every byte the binary blit writes lies inside the destination plane's
backing store: all other memory is untouched. -/
theorem bitBlt_outside_dstStore (m : Mem) (dst src : BitPlane)
    (x y cx cy xSrc ySrc : Int) (rop : Rop2) (hwf : dst.wf) {a : Int}
    (hout : ¬ dst.inStore a) :
    (bitBlt m dst src x y cx cy xSrc ySrc rop).2 a = m a := by
  rcases hC : clipAll dst src x y cx cy xSrc ySrc with _ | ⟨X, Y, CX, CY, XS, YS⟩
  · rw [bitBlt_eq_none hC]
  · obtain ⟨hX0, hCX, hXW, hXS0, hXSW, hY0, hCY, hYH, hYS0, hYSH⟩ := clipAll_sound hC
    obtain ⟨hw0, hh0, hwsb_or⟩ := hwf
    have hwpos : 0 < dst.width := by omega
    have hwsb : dst.widthScanBytes = (dst.width + 7) / 8 := by
      rcases hwsb_or with h | h | h
      · omega
      · omega
      · exact h
    have hXn : ((X.toNat : Int)) = X := Int.toNat_of_nonneg hX0
    have hYn : ((Y.toNat : Int)) = Y := Int.toNat_of_nonneg hY0
    have hCXn : ((CX.toNat : Int)) = CX := Int.toNat_of_nonneg (by omega)
    have hCYn : ((CY.toNat : Int)) = CY := Int.toNat_of_nonneg (by omega)
    have hwsbpos : 0 < dst.widthScanBytes := by omega
    rw [bitBlt_eq_some hC]
    apply bitBltBody_fst_ne
    intro i hi t ht heq
    rw [show ((((X.toNat + CX.toNat - 1) / 8 - X.toNat / 8 : Nat) : Int) + 1
        + (dst.widthScanBytes - 1 - (((X.toNat + CX.toNat - 1) / 8 - X.toNat / 8
            : Nat) : Int))) = dst.widthScanBytes from by ring] at heq
    unfold BitPlane.findBits at heq
    apply hout
    constructor
    · rw [heq]
      have h1 : 0 ≤ dst.widthScanBytes * ((Y.toNat : Int)) :=
        mul_nonneg (by omega) (by positivity)
      have h2 : 0 ≤ dst.widthScanBytes * (i : Int) :=
        mul_nonneg (by omega) (by positivity)
      have h3 : (0 : Int) ≤ ((X.toNat : Int)) / 8 := by positivity
      omega
    · rw [heq]
      have hrow : ((Y.toNat : Int)) + i ≤ dst.height - 1 := by omega
      have hmul : dst.widthScanBytes * (((Y.toNat : Int)) + i)
          ≤ dst.widthScanBytes * (dst.height - 1) :=
        mul_le_mul_of_nonneg_left hrow (by omega)
      have hring1 : dst.widthScanBytes * (((Y.toNat : Int)) + i)
          = dst.widthScanBytes * ((Y.toNat : Int)) + dst.widthScanBytes * (i : Int) := by
        ring
      have hring2 : dst.widthScanBytes * (dst.height - 1)
          = dst.widthScanBytes * dst.height - dst.widthScanBytes := by
        ring
      have hr2b : ((X.toNat : Int)) / 8 + (t : Nat) < dst.widthScanBytes := by omega
      omega

/-- Claim C9: a binary blit from a source plane whose store is disjoint from
the destination's never changes any byte of the source store (the blit only
reads through the fetcher).  The source descriptor — width, height,
`widthScanBytes`, ownership flag and store pointer — is passed by constant
reference and is immutable by construction in the model. -/
theorem claim_C9 (m : Mem) (dst src : BitPlane) (x y cx cy xSrc ySrc : Int)
    (rop : Rop2) (hwf : dst.wf)
    (hdisj : ∀ a : Int, dst.inStore a → ¬ src.inStore a) :
    ∀ a : Int, src.inStore a →
      (bitBlt m dst src x y cx cy xSrc ySrc rop).2 a = m a := by
  intro a ha
  apply bitBlt_outside_dstStore m dst src x y cx cy xSrc ySrc rop hwf
  intro hin
  exact hdisj a hin ha

theorem claim_C9_witness :
    (bitBlt memW dstW srcW 1 0 4 1 0 0 Rop2.srcCopy).2 50 = memW 50 := by
  have hd : dstW = ⟨8, 1, 1, 0, false⟩ := by decide
  have hs : srcW = ⟨8, 1, 1, 50, false⟩ := by decide
  have hwf : dstW.wf := by
    unfold BitPlane.wf
    decide
  have hdisj : ∀ a : Int, dstW.inStore a → ¬ srcW.inStore a := by
    intro a
    unfold BitPlane.inStore
    rw [hd, hs]
    dsimp only
    omega
  have h50 : srcW.inStore 50 := by
    unfold BitPlane.inStore
    decide
  exact claim_C9 memW dstW srcW 1 0 4 1 0 0 Rop2.srcCopy hwf hdisj 50 h50

/-! ### Claim C7: the DSx involution -/

theorem PhaseAlign.fetch_snd_store (m : Mem) (p : PhaseAlign) :
    (p.fetch m).2.store = p.store + 1 := by
  obtain ⟨k, st, c, sc⟩ := p
  cases k <;> rfl

theorem PhaseAlign.fetch_snd_kind (m : Mem) (p : PhaseAlign) :
    (p.fetch m).2.kind = p.kind := by
  obtain ⟨k, st, c, sc⟩ := p
  cases k <;> rfl

theorem PhaseAlign.fetch_snd_shiftCount (m : Mem) (p : PhaseAlign) :
    (p.fetch m).2.shiftCount = p.shiftCount := by
  obtain ⟨k, st, c, sc⟩ := p
  cases k <;> rfl

theorem PhaseAlign.prefetch_store (m : Mem) (p : PhaseAlign) :
    (p.prefetch m).store = p.store := by
  obtain ⟨k, st, c, sc⟩ := p
  cases k <;> rfl

theorem PhaseAlign.prefetch_kind (m : Mem) (p : PhaseAlign) :
    (p.prefetch m).kind = p.kind := by
  obtain ⟨k, st, c, sc⟩ := p
  cases k <;> rfl

theorem PhaseAlign.prefetch_shiftCount (m : Mem) (p : PhaseAlign) :
    (p.prefetch m).shiftCount = p.shiftCount := by
  obtain ⟨k, st, c, sc⟩ := p
  cases k <;> rfl

/-- Two fetches from the same functor state agree completely when the two
memories agree at the one address the fetch reads. -/
theorem PhaseAlign.fetch_pair {M N : Mem} (p : PhaseAlign)
    (h : readMem N (p.rdAddrAt 0) = readMem M (p.rdAddrAt 0)) :
    p.fetch N = p.fetch M := by
  obtain ⟨k, st, c, sc⟩ := p
  cases k <;>
    simp only [PhaseAlign.rdAddrAt, Nat.cast_zero, add_zero] at h <;>
    simp [PhaseAlign.fetch, h]

/-- Two prefetches from the same functor state agree when the memories agree
at the cursor (only the `LeftShift` variant reads it). -/
theorem PhaseAlign.prefetch_pair {M N : Mem} (p : PhaseAlign)
    (h : p.kind = .leftShift → readMem N p.store = readMem M p.store) :
    p.prefetch N = p.prefetch M := by
  obtain ⟨k, st, c, sc⟩ := p
  cases k <;> simp_all [PhaseAlign.prefetch]

theorem PhaseAlign.rdAddrAt_shift (p : PhaseAlign) (m : Mem) (j : Nat) :
    (p.fetch m).2.rdAddrAt j = p.rdAddrAt (j + 1) := by
  obtain ⟨k, st, c, sc⟩ := p
  cases k <;> simp [PhaseAlign.rdAddrAt, PhaseAlign.fetch] <;> push_cast <;> ring

theorem PhaseAlign.rdAddrAt_prefetch (p : PhaseAlign) (m : Mem) (j : Nat) :
    (p.prefetch m).rdAddrAt j = p.rdAddrAt j := by
  obtain ⟨k, st, c, sc⟩ := p
  cases k <;> rfl

/-- The central byte algebra: storing `D ^ S1` under a mask and then storing
`D' ^ S2` under the same mask restores the original byte, provided the two
source bytes agree on the mask. -/
theorem xorRestore (d s1 s2 mask : Nat) (hd : d < 256)
    (hs : mask &&& s1 = mask &&& s2) :
    ((((d &&& (mask ^^^ 255)) ||| (mask &&& (d ^^^ s1))) % 256 &&& (mask ^^^ 255))
        ||| (mask &&& (((d &&& (mask ^^^ 255)) ||| (mask &&& (d ^^^ s1))) % 256 ^^^ s2)))
      % 256 = d := by
  have h256 : (256 : Nat) = 2 ^ 8 := rfl
  have h255 : (255 : Nat) = 2 ^ 8 - 1 := rfl
  apply Nat.eq_of_testBit_eq
  intro i
  have hmaskbit := congrArg (fun v => v.testBit i) hs
  simp only [Nat.testBit_land] at hmaskbit
  by_cases hi : i < 8
  · have hb255 : (255 : Nat).testBit i = true := testBit_255 hi
    simp only [h256, Nat.testBit_mod_two_pow, hi, decide_True, Bool.true_and,
      Nat.testBit_lor, Nat.testBit_land, Nat.testBit_xor, hb255, Bool.xor_true]
    cases hm : mask.testBit i <;> cases hd1 : d.testBit i <;>
      cases hs1 : s1.testBit i <;> cases hs2 : s2.testBit i <;>
      simp_all
  · have h2i : (256 : Nat) ≤ 2 ^ i := by
      rw [h256]
      exact Nat.pow_le_pow_right (by omega) (by omega)
    have hdi : d.testBit i = false :=
      Nat.testBit_eq_false_of_lt (lt_of_lt_of_le hd h2i)
    have hlhs : ∀ v : Nat, (v % 256).testBit i = false := by
      intro v
      rw [h256, Nat.testBit_mod_two_pow]
      simp [hi]
    rw [hlhs, hdi]

/-- A mask that has no bit below `w` annihilates every value below `2 ^ w`. -/
theorem land_eq_zero_of_lt {ext x w : Nat} (hx : x < 2 ^ w)
    (h0 : ext &&& (2 ^ w - 1) = 0) : ext &&& x = 0 := by
  apply Nat.eq_of_testBit_eq
  intro i
  have h0i := congrArg (fun v => v.testBit i) h0
  simp only [Nat.testBit_land, Nat.testBit_two_pow_sub_one, Nat.zero_testBit] at h0i
  simp only [Nat.testBit_land, Nat.zero_testBit]
  by_cases hi : i < w
  · have hE : ext.testBit i = false := by simpa [hi] using h0i
    rw [hE]
    exact Bool.false_and _
  · have h2i : 2 ^ w ≤ 2 ^ i := Nat.pow_le_pow_right (by omega) (by omega)
    rw [Nat.testBit_eq_false_of_lt (lt_of_lt_of_le hx h2i)]
    exact Bool.and_false _

/-- Under a mask annihilating both low parts, the merged fetch results agree
on the mask regardless of the low bytes. -/
theorem mask_or_mod_agree (ext c l1 l2 : Nat) (h1 : ext &&& l1 = 0)
    (h2 : ext &&& l2 = 0) :
    ext &&& ((c ||| l1) % 256) = ext &&& ((c ||| l2) % 256) := by
  have h256 : (256 : Nat) = 2 ^ 8 := rfl
  apply Nat.eq_of_testBit_eq
  intro i
  have h1i := congrArg (fun v => v.testBit i) h1
  have h2i := congrArg (fun v => v.testBit i) h2
  simp only [Nat.testBit_land, Nat.zero_testBit] at h1i h2i
  simp only [h256, Nat.testBit_land, Nat.testBit_mod_two_pow, Nat.testBit_lor]
  by_cases hm : ext.testBit i
  · simp only [hm, Bool.true_and] at h1i h2i ⊢
    rw [h1i, h2i]
  · simp [hm]

/-- The extent mask has no bit below `w` whenever the rectangle's last pixel
position within its byte leaves `w` or more empty low bit positions. -/
theorem extMask_land_low {xm8 w : Nat} (h : xm8 + w ≤ 7) :
    (((255 : Nat) <<< (7 - xm8)) % 256) &&& (2 ^ w - 1) = 0 := by
  have h256 : (256 : Nat) = 2 ^ 8 := rfl
  apply Nat.eq_of_testBit_eq
  intro i
  simp only [h256, Nat.testBit_land, Nat.testBit_mod_two_pow, Nat.testBit_shiftLeft,
    Nat.testBit_two_pow_sub_one, Nat.zero_testBit]
  by_cases hi : i < w
  · simp only [hi, decide_True, Bool.and_true]
    have : ¬(7 - xm8 ≤ i) := by omega
    simp [this]
  · simp [hi]

/-- For the `DSx` operation, `fetchLogic` produces `D ^ S` and threads the
fetcher through exactly one `fetch`. -/
theorem Blt.fetchLogic_DSx (m : Mem) (b : Blt) (h : b.rop = .ropDSx) :
    b.fetchLogic m
      = (readMem m b.store ^^^ (b.phaseAlign.fetch m).1,
         { b with phaseAlign := (b.phaseAlign.fetch m).2 }) := by
  obtain ⟨rop, pa, st⟩ := b
  subst h
  rfl

theorem Blt.fetchLogicStore_snd_rop (m : Mem) (b : Blt) (mask : Nat) :
    (b.fetchLogicStore m mask).2.rop = b.rop := by
  show ((b.fetchLogic m).2).rop = b.rop
  exact Blt.fetchLogic_snd_rop m b

theorem Blt.fetchLogicStoreFull_snd_rop (m : Mem) (b : Blt) :
    (b.fetchLogicStoreFull m).2.rop = b.rop := by
  show ((b.fetchLogic m).2).rop = b.rop
  exact Blt.fetchLogic_snd_rop m b

theorem Blt.fetchLogicStore_snd_pair (M N : Mem) (b : Blt) (mask : Nat)
    (h : b.rop = .ropDSx)
    (hfetch : b.phaseAlign.fetch N = b.phaseAlign.fetch M) :
    (b.fetchLogicStore N mask).2 = (b.fetchLogicStore M mask).2 := by
  unfold Blt.fetchLogicStore
  rw [Blt.fetchLogic_DSx N b h, Blt.fetchLogic_DSx M b h, hfetch]

theorem Blt.fetchLogicStore_fst_pair (M N : Mem) (b : Blt) (mask : Nat)
    (h : b.rop = .ropDSx)
    (hS : mask &&& (b.phaseAlign.fetch N).1 = mask &&& (b.phaseAlign.fetch M).1)
    (hD : readMem N b.store = readMem ((b.fetchLogicStore M mask).1) b.store) :
    readMem ((b.fetchLogicStore N mask).1) b.store = readMem M b.store := by
  have hMv : readMem ((b.fetchLogicStore M mask).1) b.store
      = ((readMem M b.store &&& (mask ^^^ 255))
          ||| (mask &&& (readMem M b.store ^^^ (b.phaseAlign.fetch M).1))) % 256 := by
    show readMem (writeMem M b.store ((readMem M b.store &&& (mask ^^^ 0xff))
        ||| (mask &&& (b.fetchLogic M).1))) b.store = _
    rw [readMem_writeMem_self, Blt.fetchLogic_DSx M b h]
  have hNv : readMem ((b.fetchLogicStore N mask).1) b.store
      = ((readMem N b.store &&& (mask ^^^ 255))
          ||| (mask &&& (readMem N b.store ^^^ (b.phaseAlign.fetch N).1))) % 256 := by
    show readMem (writeMem N b.store ((readMem N b.store &&& (mask ^^^ 0xff))
        ||| (mask &&& (b.fetchLogic N).1))) b.store = _
    rw [readMem_writeMem_self, Blt.fetchLogic_DSx N b h]
  rw [hNv, hD, hMv]
  exact xorRestore (readMem M b.store) ((b.phaseAlign.fetch M).1)
    ((b.phaseAlign.fetch N).1) mask (readMem_lt M b.store) hS.symm

theorem land255_eq_mod (v : Nat) : 255 &&& v = v % 256 := by
  have h256 : (256 : Nat) = 2 ^ 8 := rfl
  have h255 : (255 : Nat) = 2 ^ 8 - 1 := rfl
  apply Nat.eq_of_testBit_eq
  intro i
  rw [h256, h255, Nat.testBit_land, Nat.testBit_mod_two_pow, Nat.testBit_two_pow_sub_one]

/-- The unmasked store coincides with a store under the all-ones mask. -/
theorem Blt.fetchLogicStoreFull_eq (m : Mem) (b : Blt) :
    b.fetchLogicStoreFull m = b.fetchLogicStore m 255 := by
  unfold Blt.fetchLogicStoreFull Blt.fetchLogicStore
  refine Prod.ext ?_ rfl
  funext i
  show writeMem m b.store (b.fetchLogic m).1 i = writeMem m b.store _ i
  unfold writeMem
  split
  · rw [Nat.xor_self]
    have h1 : readMem m b.store &&& 0 = 0 := Nat.and_zero _
    rw [h1, Nat.zero_or, land255_eq_mod]
    omega
  · rfl

theorem Blt.fetchLogicStoreFull_snd_pair (M N : Mem) (b : Blt)
    (h : b.rop = .ropDSx)
    (hfetch : b.phaseAlign.fetch N = b.phaseAlign.fetch M) :
    (b.fetchLogicStoreFull N).2 = (b.fetchLogicStoreFull M).2 := by
  rw [Blt.fetchLogicStoreFull_eq, Blt.fetchLogicStoreFull_eq]
  exact Blt.fetchLogicStore_snd_pair M N b 255 h hfetch

theorem Blt.fetchLogicStoreFull_fst_pair (M N : Mem) (b : Blt)
    (h : b.rop = .ropDSx)
    (hS : (b.phaseAlign.fetch N).1 = (b.phaseAlign.fetch M).1)
    (hD : readMem N b.store = readMem ((b.fetchLogicStoreFull M).1) b.store) :
    readMem ((b.fetchLogicStoreFull N).1) b.store = readMem M b.store := by
  rw [Blt.fetchLogicStoreFull_eq] at hD ⊢
  exact Blt.fetchLogicStore_fst_pair M N b 255 h (by rw [hS]) hD

/-- Re-running the unmasked middle stores of a scan line over the first
run's output restores every written byte, provided the two runs read the
same source bytes and reads never alias writes. -/
theorem middleStores_pair :
    ∀ (q : Nat) (M N : Mem) (b : Blt), b.rop = .ropDSx →
    (∀ j : Nat, j < q →
      readMem N (b.phaseAlign.rdAddrAt j) = readMem M (b.phaseAlign.rdAddrAt j)) →
    (∀ j : Nat, j < q → ∀ t : Nat, t < q →
      b.phaseAlign.rdAddrAt j ≠ b.store + t) →
    (∀ j : Nat, j < q →
      readMem N (b.store + j) = readMem ((middleStores M b q).1) (b.store + j)) →
    (middleStores N b q).2 = (middleStores M b q).2 ∧
    (∀ j : Nat, j < q →
      readMem ((middleStores N b q).1) (b.store + j) = readMem M (b.store + j)) := by
  intro q
  induction q with
  | zero =>
      intro M N b _ _ _ _
      exact ⟨rfl, by omega⟩
  | succ q ih =>
      intro M N b hrop hR hSep hD
      have hfetch : b.phaseAlign.fetch N = b.phaseAlign.fetch M :=
        PhaseAlign.fetch_pair b.phaseAlign (hR 0 (by omega))
      have hb1 : (b.fetchLogicStoreFull N).2 = (b.fetchLogicStoreFull M).2 :=
        Blt.fetchLogicStoreFull_snd_pair M N b hrop hfetch
      have hb1store : (b.fetchLogicStoreFull N).2.store = b.store + 1 :=
        Blt.fetchLogicStoreFull_snd_store N b
      have hb1rop : (b.fetchLogicStoreFull N).2.rop = Rop2.ropDSx := by
        rw [Blt.fetchLogicStoreFull_snd_rop]
        exact hrop
      have hb1pa : (b.fetchLogicStoreFull N).2.phaseAlign
          = (b.phaseAlign.fetch N).2 := by
        show ((b.fetchLogic N).2).phaseAlign = _
        rw [Blt.fetchLogic_DSx N b hrop]
      -- first store restores its byte
      have hD0 : readMem N b.store = readMem ((b.fetchLogicStoreFull M).1) b.store := by
        have := hD 0 (by omega)
        simp only [Nat.cast_zero, add_zero] at this
        rw [this]
        apply readMem_congr
        show (middleStores (b.fetchLogicStoreFull M).1 (b.fetchLogicStoreFull M).2 q).1
          b.store = (b.fetchLogicStoreFull M).1 b.store
        apply middleStores_fst_ne
        intro t ht
        rw [Blt.fetchLogicStoreFull_snd_store]
        intro hc
        omega
      have hr0 : readMem ((b.fetchLogicStoreFull N).1) b.store = readMem M b.store :=
        Blt.fetchLogicStoreFull_fst_pair M N b hrop (by rw [hfetch]) hD0
      -- the recursive call
      have hih := ih (b.fetchLogicStoreFull M).1 (b.fetchLogicStoreFull N).1
        (b.fetchLogicStoreFull N).2 hb1rop ?_ ?_ ?_
      · constructor
        · show (middleStores (b.fetchLogicStoreFull N).1 (b.fetchLogicStoreFull N).2 q).2
            = (middleStores (b.fetchLogicStoreFull M).1 (b.fetchLogicStoreFull M).2 q).2
          rw [hih.1, hb1]
        · intro j hj
          rcases Nat.eq_zero_or_pos j with hj0 | hj0
          · subst hj0
            show readMem (middleStores (b.fetchLogicStoreFull N).1
              (b.fetchLogicStoreFull N).2 q).1 (b.store + (0 : Nat)) = _
            simp only [Nat.cast_zero, add_zero]
            rw [readMem_congr (middleStores_fst_ne q _ _ ?_)]
            · exact hr0
            · intro t ht
              rw [hb1store]
              intro hc
              omega
          · obtain ⟨j', rfl⟩ : ∃ j'', j = j'' + 1 := ⟨j - 1, by omega⟩
            have := hih.2 j' (by omega)
            rw [hb1store] at this
            have haddr : b.store + 1 + (j' : Int) = b.store + ((j' + 1 : Nat) : Int) := by
              push_cast
              ring
            rw [haddr] at this
            show readMem (middleStores (b.fetchLogicStoreFull N).1
              (b.fetchLogicStoreFull N).2 q).1 (b.store + ((j' + 1 : Nat) : Int)) = _
            rw [this]
            apply readMem_congr
            apply writeMem_ne
            intro hc
            push_cast at hc
            omega
      · -- reads agree for the tail
        intro j hj
        rw [hb1pa, PhaseAlign.rdAddrAt_shift]
        have hq := hR (j + 1) (by omega)
        have hN : (b.fetchLogicStoreFull N).1 (b.phaseAlign.rdAddrAt (j + 1))
            = N (b.phaseAlign.rdAddrAt (j + 1)) := by
          apply writeMem_ne
          have := hSep (j + 1) (by omega) 0 (by omega)
          simpa using this
        have hM : (b.fetchLogicStoreFull M).1 (b.phaseAlign.rdAddrAt (j + 1))
            = M (b.phaseAlign.rdAddrAt (j + 1)) := by
          apply writeMem_ne
          have := hSep (j + 1) (by omega) 0 (by omega)
          simpa using this
        rw [readMem_congr hN, readMem_congr hM]
        exact hq
      · -- separation for the tail
        intro j hj t ht
        rw [hb1pa, PhaseAlign.rdAddrAt_shift, hb1store]
        have := hSep (j + 1) (by omega) (t + 1) (by omega)
        intro hc
        apply this
        rw [hc]
        push_cast
        ring
      · -- destination agreement for the tail
        intro j hj
        rw [hb1store]
        have haddr : b.store + 1 + (j : Int) = b.store + ((j + 1 : Nat) : Int) := by
          push_cast
          ring
        rw [haddr]
        have hNst : (b.fetchLogicStoreFull N).1 (b.store + ((j + 1 : Nat) : Int))
            = N (b.store + ((j + 1 : Nat) : Int)) := by
          apply writeMem_ne
          intro hc
          push_cast at hc
          omega
        rw [readMem_congr hNst, hb1]
        exact hD (j + 1) (by omega)

theorem shiftRight_lt_pow {lo a w : Nat} (hlo : lo < 256) (h : 8 ≤ a + w) :
    lo >>> a < 2 ^ w := by
  rw [Nat.shiftRight_eq_div_pow]
  apply Nat.div_lt_of_lt_mul
  calc lo < 256 := hlo
    _ = 2 ^ 8 := rfl
    _ ≤ 2 ^ (a + w) := Nat.pow_le_pow_right (by omega) h
    _ = 2 ^ a * 2 ^ w := by rw [Nat.pow_add]

theorem killCond_congr {p1 p2 : PhaseAlign} {mask : Nat}
    (hk : p1.kind = p2.kind) (hs : p1.shiftCount = p2.shiftCount)
    (h : killCond p1 mask) : killCond p2 mask := by
  unfold killCond at *
  rw [← hk, ← hs]
  exact h

theorem killCond_land_left {p : PhaseAlign} {org ext : Nat}
    (h : killCond p ext) : killCond p (org &&& ext) := by
  unfold killCond at *
  obtain ⟨k, st, c, sc⟩ := p
  cases k
  · exact h
  · show org &&& ext &&& _ = 0
    rw [Nat.land_assoc, h, Nat.and_zero]
  · show org &&& ext &&& _ = 0
    rw [Nat.land_assoc, h, Nat.and_zero]

/-- Under a dead-bits mask, the masked fetch result does not depend on the
byte read: two fetches from the same state over any two memories agree on
the mask. -/
theorem PhaseAlign.fetch_mask_pair (M N : Mem) (p : PhaseAlign) (mask : Nat)
    (hkill : killCond p mask) :
    mask &&& (p.fetch N).1 = mask &&& (p.fetch M).1 := by
  obtain ⟨k, st, c, sc⟩ := p
  cases k
  · exact absurd hkill (by simp [killCond])
  · replace hkill : mask &&& (2 ^ (8 - sc).toNat - 1) = 0 := hkill
    show mask &&& shrdl sc c (readMem N st) = mask &&& shrdl sc c (readMem M st)
    unfold shrdl
    apply mask_or_mod_agree
    · exact land_eq_zero_of_lt
        (shiftRight_lt_pow (readMem_lt N st) (by omega)) hkill
    · exact land_eq_zero_of_lt
        (shiftRight_lt_pow (readMem_lt M st) (by omega)) hkill
  · replace hkill : mask &&& (2 ^ sc.toNat - 1) = 0 := hkill
    show mask &&& shldl sc (readMem N (st + 1)) c
        = mask &&& shldl sc (readMem M (st + 1)) c
    unfold shldl
    apply mask_or_mod_agree
    · exact land_eq_zero_of_lt
        (shiftRight_lt_pow (readMem_lt N (st + 1)) (by omega)) hkill
    · exact land_eq_zero_of_lt
        (shiftRight_lt_pow (readMem_lt M (st + 1)) (by omega)) hkill

theorem bltRow_eq_core (m : Mem) (b : Blt) (extra orgMask extMask : Nat) :
    bltRow m b extra orgMask extMask
      = bltRowCore m { b with phaseAlign := b.phaseAlign.prefetch m }
          extra orgMask extMask := rfl

theorem middleStores_snd_rop :
    ∀ (n : Nat) (m : Mem) (b : Blt), (middleStores m b n).2.rop = b.rop := by
  intro n
  induction n with
  | zero => intro m b; rfl
  | succ n ih =>
      intro m b
      show (middleStores (b.fetchLogicStoreFull m).1
        (b.fetchLogicStoreFull m).2 n).2.rop = b.rop
      rw [ih, Blt.fetchLogicStoreFull_snd_rop]

theorem bltRow_snd_rop (m : Mem) (b : Blt) (extra orgMask extMask : Nat) :
    (bltRow m b extra orgMask extMask).2.rop = b.rop := by
  rw [bltRow_eq_core]
  unfold bltRowCore
  by_cases hex : extra = 0
  · rw [if_pos hex, Blt.fetchLogicStore_snd_rop]
  · rw [if_neg hex, Blt.fetchLogicStore_snd_rop, middleStores_snd_rop,
      Blt.fetchLogicStore_snd_rop]

theorem Blt.fetchLogicStore_snd_pa (m : Mem) (b : Blt) (mask : Nat)
    (h : b.rop = .ropDSx) :
    (b.fetchLogicStore m mask).2.phaseAlign = (b.phaseAlign.fetch m).2 := by
  show ((b.fetchLogic m).2).phaseAlign = _
  rw [Blt.fetchLogic_DSx m b h]

theorem Blt.fetchLogicStoreFull_snd_pa (m : Mem) (b : Blt)
    (h : b.rop = .ropDSx) :
    (b.fetchLogicStoreFull m).2.phaseAlign = (b.phaseAlign.fetch m).2 := by
  show ((b.fetchLogic m).2).phaseAlign = _
  rw [Blt.fetchLogic_DSx m b h]

theorem middleStores_snd_pa :
    ∀ (n : Nat) (m : Mem) (b : Blt), b.rop = .ropDSx →
      (middleStores m b n).2.phaseAlign.store = b.phaseAlign.store + n ∧
      (middleStores m b n).2.phaseAlign.kind = b.phaseAlign.kind ∧
      (middleStores m b n).2.phaseAlign.shiftCount = b.phaseAlign.shiftCount := by
  intro n
  induction n with
  | zero => intro m b _; exact ⟨by simp [middleStores], rfl, rfl⟩
  | succ n ih =>
      intro m b hrop
      have h1 := Blt.fetchLogicStoreFull_snd_pa m b hrop
      have hrop1 : (b.fetchLogicStoreFull m).2.rop = Rop2.ropDSx := by
        rw [Blt.fetchLogicStoreFull_snd_rop]
        exact hrop
      have hih := ih (b.fetchLogicStoreFull m).1 (b.fetchLogicStoreFull m).2 hrop1
      refine ⟨?_, ?_, ?_⟩
      · show (middleStores (b.fetchLogicStoreFull m).1
          (b.fetchLogicStoreFull m).2 n).2.phaseAlign.store = _
        rw [hih.1, h1, PhaseAlign.fetch_snd_store]
        push_cast
        ring
      · show (middleStores (b.fetchLogicStoreFull m).1
          (b.fetchLogicStoreFull m).2 n).2.phaseAlign.kind = _
        rw [hih.2.1, h1, PhaseAlign.fetch_snd_kind]
      · show (middleStores (b.fetchLogicStoreFull m).1
          (b.fetchLogicStoreFull m).2 n).2.phaseAlign.shiftCount = _
        rw [hih.2.2, h1, PhaseAlign.fetch_snd_shiftCount]

theorem bltRow_snd_pa (m : Mem) (b : Blt) (extra orgMask extMask : Nat)
    (hrop : b.rop = .ropDSx) :
    (bltRow m b extra orgMask extMask).2.phaseAlign.store
        = b.phaseAlign.store + extra + 1 ∧
    (bltRow m b extra orgMask extMask).2.phaseAlign.kind = b.phaseAlign.kind ∧
    (bltRow m b extra orgMask extMask).2.phaseAlign.shiftCount
        = b.phaseAlign.shiftCount := by
  rw [bltRow_eq_core]
  unfold bltRowCore
  have hb' : ({ b with phaseAlign := b.phaseAlign.prefetch m } : Blt).phaseAlign
      = b.phaseAlign.prefetch m := rfl
  by_cases hex : extra = 0
  · rw [if_pos hex]
    have h1 := Blt.fetchLogicStore_snd_pa m
      { b with phaseAlign := b.phaseAlign.prefetch m } (orgMask &&& extMask) hrop
    subst hex
    refine ⟨?_, ?_, ?_⟩
    · rw [h1, PhaseAlign.fetch_snd_store, hb', PhaseAlign.prefetch_store]
      push_cast
      ring
    · rw [h1, PhaseAlign.fetch_snd_kind, hb', PhaseAlign.prefetch_kind]
    · rw [h1, PhaseAlign.fetch_snd_shiftCount, hb', PhaseAlign.prefetch_shiftCount]
  · rw [if_neg hex]
    have h1 := Blt.fetchLogicStore_snd_pa m
      { b with phaseAlign := b.phaseAlign.prefetch m } orgMask hrop
    have h1rop : (Blt.fetchLogicStore m
        { b with phaseAlign := b.phaseAlign.prefetch m } orgMask).2.rop
        = Rop2.ropDSx := by
      rw [Blt.fetchLogicStore_snd_rop]
      exact hrop
    have h2 := middleStores_snd_pa (extra - 1)
      (Blt.fetchLogicStore m { b with phaseAlign := b.phaseAlign.prefetch m } orgMask).1
      (Blt.fetchLogicStore m { b with phaseAlign := b.phaseAlign.prefetch m } orgMask).2
      h1rop
    have h2rop : (middleStores
        (Blt.fetchLogicStore m { b with phaseAlign := b.phaseAlign.prefetch m } orgMask).1
        (Blt.fetchLogicStore m { b with phaseAlign := b.phaseAlign.prefetch m } orgMask).2
        (extra - 1)).2.rop = Rop2.ropDSx := by
      rw [middleStores_snd_rop]
      exact h1rop
    have h3 := Blt.fetchLogicStore_snd_pa
      (middleStores
        (Blt.fetchLogicStore m { b with phaseAlign := b.phaseAlign.prefetch m } orgMask).1
        (Blt.fetchLogicStore m { b with phaseAlign := b.phaseAlign.prefetch m } orgMask).2
        (extra - 1)).1
      (middleStores
        (Blt.fetchLogicStore m { b with phaseAlign := b.phaseAlign.prefetch m } orgMask).1
        (Blt.fetchLogicStore m { b with phaseAlign := b.phaseAlign.prefetch m } orgMask).2
        (extra - 1)).2
      extMask h2rop
    refine ⟨?_, ?_, ?_⟩
    · rw [h3, PhaseAlign.fetch_snd_store, h2.1, h1, PhaseAlign.fetch_snd_store,
        hb', PhaseAlign.prefetch_store]
      have hcast : ((extra - 1 : Nat) : Int) = (extra : Int) - 1 := by omega
      rw [hcast]
      ring
    · rw [h3, PhaseAlign.fetch_snd_kind, h2.2.1, h1, PhaseAlign.fetch_snd_kind,
        hb', PhaseAlign.prefetch_kind]
    · rw [h3, PhaseAlign.fetch_snd_shiftCount, h2.2.2, h1,
        PhaseAlign.fetch_snd_shiftCount, hb', PhaseAlign.prefetch_shiftCount]

theorem rdAddrAt_store_shift {p q : PhaseAlign} {d : Int}
    (hk : q.kind = p.kind) (hs : q.store = p.store + d) (j : Nat) :
    q.rdAddrAt j = p.rdAddrAt j + d := by
  unfold PhaseAlign.rdAddrAt
  rw [hk, hs]
  cases p.kind <;> ring

theorem bltRowCore_fst_ne (m : Mem) (b : Blt) (extra orgMask extMask : Nat) {a : Int}
    (h : ∀ t : Nat, t ≤ extra → a ≠ b.store + t) :
    (bltRowCore m b extra orgMask extMask).1 a = m a := by
  have hb0 : a ≠ b.store := by simpa using h 0 (by omega)
  unfold bltRowCore
  by_cases hex : extra = 0
  · rw [if_pos hex]
    exact Blt.fetchLogicStore_fst_ne _ _ _ hb0
  · rw [if_neg hex]
    have c1 : (Blt.fetchLogicStore m b orgMask).2.store = b.store + 1 :=
      Blt.fetchLogicStore_snd_store m _ orgMask
    have h2 : ∀ t : Nat, t < extra - 1 →
        a ≠ (Blt.fetchLogicStore m b orgMask).2.store + t := by
      intro t ht
      rw [c1]
      have := h (t + 1) (by omega)
      push_cast at this ⊢
      omega
    have e2 := middleStores_fst_ne (extra - 1)
      ((Blt.fetchLogicStore m b orgMask).1) ((Blt.fetchLogicStore m b orgMask).2) h2
    have c2 : (middleStores ((Blt.fetchLogicStore m b orgMask).1)
        ((Blt.fetchLogicStore m b orgMask).2) (extra - 1)).2.store
        = b.store + extra := by
      rw [middleStores_snd_store, c1]
      push_cast
      omega
    have hbe : a ≠ b.store + (extra : Int) := by
      have := h extra (by omega)
      push_cast at this ⊢
      omega
    have e3 := Blt.fetchLogicStore_fst_ne (a := a)
      ((middleStores ((Blt.fetchLogicStore m b orgMask).1)
        ((Blt.fetchLogicStore m b orgMask).2) (extra - 1)).1)
      ((middleStores ((Blt.fetchLogicStore m b orgMask).1)
        ((Blt.fetchLogicStore m b orgMask).2) (extra - 1)).2)
      extMask (by rw [c2]; exact hbe)
    rw [e3, e2, Blt.fetchLogicStore_fst_ne m b orgMask hb0]

/-- Peeling one store off the core of a scan line: the remaining `extra`
stores form the core of a line whose origin mask is all ones. -/
theorem bltRowCore_succ (m : Mem) (b : Blt) (k : Nat) (org ext : Nat)
    (hext : ext < 256) :
    bltRowCore m b (k + 1) org ext
      = bltRowCore (b.fetchLogicStore m org).1 (b.fetchLogicStore m org).2
          k 255 ext := by
  have h255 : 255 &&& ext = ext := by
    rw [land255_eq_mod]
    exact Nat.mod_eq_of_lt hext
  cases k with
  | zero =>
      show (b.fetchLogicStore m org).2.fetchLogicStore (b.fetchLogicStore m org).1 ext
        = (b.fetchLogicStore m org).2.fetchLogicStore (b.fetchLogicStore m org).1
            (255 &&& ext)
      rw [h255]
  | succ q =>
      show (middleStores
          ((b.fetchLogicStore m org).2.fetchLogicStoreFull (b.fetchLogicStore m org).1).1
          ((b.fetchLogicStore m org).2.fetchLogicStoreFull (b.fetchLogicStore m org).1).2
          q).2.fetchLogicStore
        (middleStores
          ((b.fetchLogicStore m org).2.fetchLogicStoreFull (b.fetchLogicStore m org).1).1
          ((b.fetchLogicStore m org).2.fetchLogicStoreFull (b.fetchLogicStore m org).1).2
          q).1 ext
        = _
      rw [Blt.fetchLogicStoreFull_eq]
      rfl

/-- The central pair lemma for one scan-line core: re-running the stores of
a line over the first run's output restores every stored byte, provided the
second run reads the same source bytes as the first at every fetch — except
possibly the last fetch, which may instead be covered by the dead-bits
condition of the extent mask — and reads never alias the line's stores. -/
theorem bltRowCore_pair :
    ∀ (extra : Nat) (M N : Mem) (b : Blt) (org ext : Nat), ext < 256 →
    b.rop = .ropDSx →
    (∀ j : Nat, j < extra →
      readMem N (b.phaseAlign.rdAddrAt j) = readMem M (b.phaseAlign.rdAddrAt j)) →
    ((readMem N (b.phaseAlign.rdAddrAt extra)
          = readMem M (b.phaseAlign.rdAddrAt extra)
        ∧ ∀ t : Nat, t ≤ extra → b.phaseAlign.rdAddrAt extra ≠ b.store + t)
      ∨ killCond b.phaseAlign ext) →
    (∀ j : Nat, j < extra → ∀ t : Nat, t ≤ extra →
      b.phaseAlign.rdAddrAt j ≠ b.store + t) →
    (∀ t : Nat, t ≤ extra →
      readMem N (b.store + t)
        = readMem ((bltRowCore M b extra org ext).1) (b.store + t)) →
    (∀ t : Nat, t ≤ extra →
      readMem ((bltRowCore N b extra org ext).1) (b.store + t)
        = readMem M (b.store + t)) ∧
    ((readMem N (b.phaseAlign.rdAddrAt extra)
          = readMem M (b.phaseAlign.rdAddrAt extra)
        ∧ ∀ t : Nat, t ≤ extra → b.phaseAlign.rdAddrAt extra ≠ b.store + t) →
      (bltRowCore N b extra org ext).2 = (bltRowCore M b extra org ext).2) := by
  intro extra
  induction extra with
  | zero =>
      intro M N b org ext hext hrop hR hLast hSep hD
      have hcore : ∀ (m' : Mem),
          bltRowCore m' b 0 org ext = b.fetchLogicStore m' (org &&& ext) :=
        fun m' => rfl
      have hS : (org &&& ext) &&& (b.phaseAlign.fetch N).1
          = (org &&& ext) &&& (b.phaseAlign.fetch M).1 := by
        rcases hLast with ⟨hagree, -⟩ | hkill
        · rw [PhaseAlign.fetch_pair b.phaseAlign hagree]
        · exact PhaseAlign.fetch_mask_pair M N b.phaseAlign (org &&& ext)
            (killCond_land_left hkill)
      have hD0 : readMem N b.store
          = readMem ((b.fetchLogicStore M (org &&& ext)).1) b.store := by
        have h0 := hD 0 (by omega)
        rw [hcore M] at h0
        simpa using h0
      have hfst := Blt.fetchLogicStore_fst_pair M N b (org &&& ext) hrop hS hD0
      constructor
      · intro t ht
        have ht0 : t = 0 := by omega
        subst ht0
        rw [hcore N]
        simpa using hfst
      · rintro ⟨hagree, -⟩
        rw [hcore N, hcore M]
        exact Blt.fetchLogicStore_snd_pair M N b (org &&& ext) hrop
          (PhaseAlign.fetch_pair b.phaseAlign hagree)
  | succ k ih =>
      intro M N b org ext hext hrop hR hLast hSep hD
      have hfetch0 : b.phaseAlign.fetch N = b.phaseAlign.fetch M :=
        PhaseAlign.fetch_pair b.phaseAlign (hR 0 (by omega))
      have hbeq : (b.fetchLogicStore N org).2 = (b.fetchLogicStore M org).2 :=
        Blt.fetchLogicStore_snd_pair M N b org hrop hfetch0
      have hb1store : (b.fetchLogicStore M org).2.store = b.store + 1 :=
        Blt.fetchLogicStore_snd_store M b org
      have hb1rop : (b.fetchLogicStore M org).2.rop = Rop2.ropDSx := by
        rw [Blt.fetchLogicStore_snd_rop]
        exact hrop
      have hb1pa : (b.fetchLogicStore M org).2.phaseAlign = (b.phaseAlign.fetch M).2 :=
        Blt.fetchLogicStore_snd_pa M b org hrop
      have hb1rd : ∀ j : Nat, (b.fetchLogicStore M org).2.phaseAlign.rdAddrAt j
          = b.phaseAlign.rdAddrAt (j + 1) := by
        intro j
        rw [hb1pa, PhaseAlign.rdAddrAt_shift]
      have hb1kind : (b.fetchLogicStore M org).2.phaseAlign.kind
          = b.phaseAlign.kind := by
        rw [hb1pa, PhaseAlign.fetch_snd_kind]
      have hb1sc : (b.fetchLogicStore M org).2.phaseAlign.shiftCount
          = b.phaseAlign.shiftCount := by
        rw [hb1pa, PhaseAlign.fetch_snd_shiftCount]
      have hrecM : bltRowCore M b (k + 1) org ext
          = bltRowCore (b.fetchLogicStore M org).1 (b.fetchLogicStore M org).2
              k 255 ext :=
        bltRowCore_succ M b k org ext hext
      have hrecN : bltRowCore N b (k + 1) org ext
          = bltRowCore (b.fetchLogicStore N org).1 (b.fetchLogicStore M org).2
              k 255 ext := by
        rw [bltRowCore_succ N b k org ext hext, hbeq]
      have hR' : ∀ j : Nat, j < k →
          readMem (b.fetchLogicStore N org).1
              ((b.fetchLogicStore M org).2.phaseAlign.rdAddrAt j)
            = readMem (b.fetchLogicStore M org).1
              ((b.fetchLogicStore M org).2.phaseAlign.rdAddrAt j) := by
        intro j hj
        rw [hb1rd j]
        have hne : b.phaseAlign.rdAddrAt (j + 1) ≠ b.store := by
          simpa using hSep (j + 1) (by omega) 0 (by omega)
        rw [readMem_congr (Blt.fetchLogicStore_fst_ne N b org hne),
            readMem_congr (Blt.fetchLogicStore_fst_ne M b org hne)]
        exact hR (j + 1) (by omega)
      have hLast' : (readMem (b.fetchLogicStore N org).1
              ((b.fetchLogicStore M org).2.phaseAlign.rdAddrAt k)
            = readMem (b.fetchLogicStore M org).1
              ((b.fetchLogicStore M org).2.phaseAlign.rdAddrAt k)
          ∧ ∀ t : Nat, t ≤ k →
            (b.fetchLogicStore M org).2.phaseAlign.rdAddrAt k
              ≠ (b.fetchLogicStore M org).2.store + t)
          ∨ killCond (b.fetchLogicStore M org).2.phaseAlign ext := by
        rcases hLast with ⟨hagree, hsep⟩ | hkill
        · left
          constructor
          · rw [hb1rd k]
            have hne : b.phaseAlign.rdAddrAt (k + 1) ≠ b.store := by
              simpa using hsep 0 (by omega)
            rw [readMem_congr (Blt.fetchLogicStore_fst_ne N b org hne),
                readMem_congr (Blt.fetchLogicStore_fst_ne M b org hne)]
            exact hagree
          · intro t ht
            rw [hb1rd k, hb1store]
            have hs := hsep (t + 1) (by omega)
            intro hc
            apply hs
            rw [hc]
            push_cast
            ring
        · right
          exact killCond_congr hb1kind.symm hb1sc.symm hkill
      have hSep' : ∀ j : Nat, j < k → ∀ t : Nat, t ≤ k →
          (b.fetchLogicStore M org).2.phaseAlign.rdAddrAt j
            ≠ (b.fetchLogicStore M org).2.store + t := by
        intro j hj t ht
        rw [hb1rd j, hb1store]
        have hs := hSep (j + 1) (by omega) (t + 1) (by omega)
        intro hc
        apply hs
        rw [hc]
        push_cast
        ring
      have hD' : ∀ t : Nat, t ≤ k →
          readMem (b.fetchLogicStore N org).1 ((b.fetchLogicStore M org).2.store + t)
            = readMem ((bltRowCore (b.fetchLogicStore M org).1
                  (b.fetchLogicStore M org).2 k 255 ext).1)
                ((b.fetchLogicStore M org).2.store + t) := by
        intro t ht
        rw [hb1store]
        have haddr : b.store + 1 + (t : Int) = b.store + ((t + 1 : Nat) : Int) := by
          push_cast
          ring
        rw [haddr]
        have hne : b.store + ((t + 1 : Nat) : Int) ≠ b.store := by
          push_cast
          omega
        rw [readMem_congr (Blt.fetchLogicStore_fst_ne N b org hne)]
        have hd := hD (t + 1) (by omega)
        rw [hrecM] at hd
        exact hd
      have hIH := ih (b.fetchLogicStore M org).1 (b.fetchLogicStore N org).1
        (b.fetchLogicStore M org).2 255 ext hext hb1rop hR' hLast' hSep' hD'
      have hD0 : readMem N b.store = readMem ((b.fetchLogicStore M org).1) b.store := by
        have hd := hD 0 (by omega)
        rw [hrecM] at hd
        simp only [Nat.cast_zero, add_zero] at hd
        rw [hd]
        apply readMem_congr
        apply bltRowCore_fst_ne
        intro t ht
        rw [hb1store]
        omega
      have hS0 : org &&& (b.phaseAlign.fetch N).1 = org &&& (b.phaseAlign.fetch M).1 := by
        rw [hfetch0]
      have hr0 : readMem ((b.fetchLogicStore N org).1) b.store = readMem M b.store :=
        Blt.fetchLogicStore_fst_pair M N b org hrop hS0 hD0
      constructor
      · intro t ht
        rw [hrecN]
        rcases Nat.eq_zero_or_pos t with ht0 | htpos
        · subst ht0
          simp only [Nat.cast_zero, add_zero]
          have hfne : (bltRowCore (b.fetchLogicStore N org).1
                (b.fetchLogicStore M org).2 k 255 ext).1 b.store
              = (b.fetchLogicStore N org).1 b.store := by
            apply bltRowCore_fst_ne
            intro t' ht'
            rw [hb1store]
            omega
          rw [readMem_congr hfne]
          exact hr0
        · obtain ⟨t', rfl⟩ : ∃ t'', t = t'' + 1 := ⟨t - 1, by omega⟩
          have hc1 := hIH.1 t' (by omega)
          rw [hb1store] at hc1
          have haddr : b.store + 1 + (t' : Int) = b.store + ((t' + 1 : Nat) : Int) := by
            push_cast
            ring
          rw [haddr] at hc1
          rw [hc1]
          apply readMem_congr
          apply Blt.fetchLogicStore_fst_ne
          push_cast
          omega
      · rintro ⟨hagree, hsep⟩
        rw [hrecN, hrecM]
        apply hIH.2
        constructor
        · rw [hb1rd k]
          have hne : b.phaseAlign.rdAddrAt (k + 1) ≠ b.store := by
            simpa using hsep 0 (by omega)
          rw [readMem_congr (Blt.fetchLogicStore_fst_ne N b org hne),
              readMem_congr (Blt.fetchLogicStore_fst_ne M b org hne)]
          exact hagree
        · intro t ht
          rw [hb1rd k, hb1store]
          have hs := hsep (t + 1) (by omega)
          intro hc
          apply hs
          rw [hc]
          push_cast
          ring

/-- The pair lemma for a full scan line including the prefetch: the second
run's line restores every byte the first run's line stored, and — when even
the last fetch reads agreeing bytes — ends in the same functor state. -/
theorem bltRow_pair (M N : Mem) (b : Blt) (extra org ext : Nat) (hext : ext < 256)
    (hrop : b.rop = .ropDSx)
    (hPre : b.phaseAlign.kind = .leftShift →
      readMem N b.phaseAlign.store = readMem M b.phaseAlign.store)
    (hR : ∀ j : Nat, j < extra →
      readMem N (b.phaseAlign.rdAddrAt j) = readMem M (b.phaseAlign.rdAddrAt j))
    (hLast : (readMem N (b.phaseAlign.rdAddrAt extra)
          = readMem M (b.phaseAlign.rdAddrAt extra)
        ∧ ∀ t : Nat, t ≤ extra → b.phaseAlign.rdAddrAt extra ≠ b.store + t)
      ∨ killCond b.phaseAlign ext)
    (hSep : ∀ j : Nat, j < extra → ∀ t : Nat, t ≤ extra →
      b.phaseAlign.rdAddrAt j ≠ b.store + t)
    (hD : ∀ t : Nat, t ≤ extra →
      readMem N (b.store + t) = readMem ((bltRow M b extra org ext).1) (b.store + t)) :
    (∀ t : Nat, t ≤ extra →
      readMem ((bltRow N b extra org ext).1) (b.store + t) = readMem M (b.store + t)) ∧
    ((readMem N (b.phaseAlign.rdAddrAt extra)
          = readMem M (b.phaseAlign.rdAddrAt extra)
        ∧ ∀ t : Nat, t ≤ extra → b.phaseAlign.rdAddrAt extra ≠ b.store + t) →
      (bltRow N b extra org ext).2 = (bltRow M b extra org ext).2) := by
  have hprefetch : b.phaseAlign.prefetch N = b.phaseAlign.prefetch M :=
    PhaseAlign.prefetch_pair b.phaseAlign hPre
  have hcoreN : bltRow N b extra org ext
      = bltRowCore N { b with phaseAlign := b.phaseAlign.prefetch M } extra org ext := by
    rw [bltRow_eq_core, hprefetch]
  have hcoreM : bltRow M b extra org ext
      = bltRowCore M { b with phaseAlign := b.phaseAlign.prefetch M } extra org ext :=
    bltRow_eq_core M b extra org ext
  have hpa : ({ b with phaseAlign := b.phaseAlign.prefetch M } : Blt).phaseAlign
      = b.phaseAlign.prefetch M := rfl
  have hrd : ∀ j : Nat,
      ({ b with phaseAlign := b.phaseAlign.prefetch M } : Blt).phaseAlign.rdAddrAt j
        = b.phaseAlign.rdAddrAt j := by
    intro j
    rw [hpa, PhaseAlign.rdAddrAt_prefetch]
  have hst : ({ b with phaseAlign := b.phaseAlign.prefetch M } : Blt).store
      = b.store := rfl
  have hro : ({ b with phaseAlign := b.phaseAlign.prefetch M } : Blt).rop
      = Rop2.ropDSx := hrop
  have hR'' : ∀ j : Nat, j < extra →
      readMem N (({ b with phaseAlign := b.phaseAlign.prefetch M }
          : Blt).phaseAlign.rdAddrAt j)
        = readMem M (({ b with phaseAlign := b.phaseAlign.prefetch M }
          : Blt).phaseAlign.rdAddrAt j) := by
    intro j hj
    rw [hrd j]
    exact hR j hj
  have hLast'' : (readMem N (({ b with phaseAlign := b.phaseAlign.prefetch M }
          : Blt).phaseAlign.rdAddrAt extra)
        = readMem M (({ b with phaseAlign := b.phaseAlign.prefetch M }
          : Blt).phaseAlign.rdAddrAt extra)
      ∧ ∀ t : Nat, t ≤ extra →
        ({ b with phaseAlign := b.phaseAlign.prefetch M }
            : Blt).phaseAlign.rdAddrAt extra
          ≠ ({ b with phaseAlign := b.phaseAlign.prefetch M } : Blt).store + t)
      ∨ killCond ({ b with phaseAlign := b.phaseAlign.prefetch M }
          : Blt).phaseAlign ext := by
    rcases hLast with ⟨hagree, hsep⟩ | hkill
    · left
      constructor
      · rw [hrd extra]
        exact hagree
      · intro t ht
        rw [hrd extra, hst]
        exact hsep t ht
    · right
      refine killCond_congr ?_ ?_ hkill
      · rw [hpa, PhaseAlign.prefetch_kind]
      · rw [hpa, PhaseAlign.prefetch_shiftCount]
  have hSep'' : ∀ j : Nat, j < extra → ∀ t : Nat, t ≤ extra →
      ({ b with phaseAlign := b.phaseAlign.prefetch M }
          : Blt).phaseAlign.rdAddrAt j
        ≠ ({ b with phaseAlign := b.phaseAlign.prefetch M } : Blt).store + t := by
    intro j hj t ht
    rw [hrd j, hst]
    exact hSep j hj t ht
  have hD'' : ∀ t : Nat, t ≤ extra →
      readMem N (({ b with phaseAlign := b.phaseAlign.prefetch M } : Blt).store + t)
        = readMem ((bltRowCore M { b with phaseAlign := b.phaseAlign.prefetch M }
            extra org ext).1)
          (({ b with phaseAlign := b.phaseAlign.prefetch M } : Blt).store + t) := by
    intro t ht
    rw [hst, ← hcoreM]
    exact hD t ht
  have hcp := bltRowCore_pair extra M N
    { b with phaseAlign := b.phaseAlign.prefetch M } org ext hext hro
    hR'' hLast'' hSep'' hD''
  constructor
  · intro t ht
    rw [hcoreN]
    have hc := hcp.1 t ht
    rw [hst] at hc
    exact hc
  · rintro ⟨hagree, hsep⟩
    rw [hcoreN, hcoreM]
    apply hcp.2
    constructor
    · rw [hrd extra]
      exact hagree
    · intro t ht
      rw [hrd extra, hst]
      exact hsep t ht

/-- The pair lemma for the whole inner loop: running the `n` scan lines a
second time over the first run's output restores every byte the first run
stored, provided the second run reads the same bytes at every fetch — the
very last fetch of the last line may instead be covered by the dead-bits
condition — and reads never alias stores, while the lines' store runs are
mutually disjoint. -/
theorem bltRows_pair (extra org ext : Nat) (displace displaceSrc : Int)
    (hext : ext < 256) :
    ∀ (n : Nat) (M N : Mem) (b : Blt), b.rop = .ropDSx →
    (∀ i : Nat, i < n → b.phaseAlign.kind = .leftShift →
      readMem N (b.phaseAlign.store + ((extra : Int) + 1 + displaceSrc) * i)
        = readMem M (b.phaseAlign.store + ((extra : Int) + 1 + displaceSrc) * i)) →
    (∀ i : Nat, i < n → ∀ j : Nat, j ≤ extra → (i + 1 < n ∨ j < extra) →
      readMem N (b.phaseAlign.rdAddrAt j + ((extra : Int) + 1 + displaceSrc) * i)
        = readMem M (b.phaseAlign.rdAddrAt j + ((extra : Int) + 1 + displaceSrc) * i)) →
    ((readMem N (b.phaseAlign.rdAddrAt extra
            + ((extra : Int) + 1 + displaceSrc) * ((n - 1 : Nat) : Int))
        = readMem M (b.phaseAlign.rdAddrAt extra
            + ((extra : Int) + 1 + displaceSrc) * ((n - 1 : Nat) : Int))
      ∧ ∀ i' : Nat, i' < n → ∀ t : Nat, t ≤ extra →
        b.phaseAlign.rdAddrAt extra
            + ((extra : Int) + 1 + displaceSrc) * ((n - 1 : Nat) : Int)
          ≠ b.store + ((extra : Int) + 1 + displace) * i' + t)
      ∨ killCond b.phaseAlign ext) →
    (∀ i : Nat, i < n → ∀ j : Nat, j ≤ extra → (i + 1 < n ∨ j < extra) →
      ∀ i' : Nat, i' < n → ∀ t : Nat, t ≤ extra →
      b.phaseAlign.rdAddrAt j + ((extra : Int) + 1 + displaceSrc) * i
        ≠ b.store + ((extra : Int) + 1 + displace) * i' + t) →
    (b.phaseAlign.kind = .leftShift → ∀ i : Nat, i < n → ∀ i' : Nat, i' < n →
      ∀ t : Nat, t ≤ extra →
      b.phaseAlign.store + ((extra : Int) + 1 + displaceSrc) * i
        ≠ b.store + ((extra : Int) + 1 + displace) * i' + t) →
    (∀ i : Nat, i < n → ∀ i' : Nat, i' < n → i ≠ i' → ∀ t : Nat, t ≤ extra →
      ∀ t' : Nat, t' ≤ extra →
      b.store + ((extra : Int) + 1 + displace) * i + t
        ≠ b.store + ((extra : Int) + 1 + displace) * i' + t') →
    (∀ i : Nat, i < n → ∀ t : Nat, t ≤ extra →
      readMem N (b.store + ((extra : Int) + 1 + displace) * i + t)
        = readMem ((bltRows M b extra org ext displace displaceSrc n).1)
            (b.store + ((extra : Int) + 1 + displace) * i + t)) →
    (∀ i : Nat, i < n → ∀ t : Nat, t ≤ extra →
      readMem ((bltRows N b extra org ext displace displaceSrc n).1)
          (b.store + ((extra : Int) + 1 + displace) * i + t)
        = readMem M (b.store + ((extra : Int) + 1 + displace) * i + t)) := by
  intro n
  induction n with
  | zero =>
      intro M N b _ _ _ _ _ _ _ _ i hi
      omega
  | succ q ih =>
      intro M N b hrop hPre hR hLastKill hSep hSepPre hW hD
      -- row 0 inputs for the single-line pair lemma
      have hPre0 : b.phaseAlign.kind = .leftShift →
          readMem N b.phaseAlign.store = readMem M b.phaseAlign.store := by
        intro hk
        have h0 := hPre 0 (by omega) hk
        simpa using h0
      have hR0 : ∀ j : Nat, j < extra →
          readMem N (b.phaseAlign.rdAddrAt j) = readMem M (b.phaseAlign.rdAddrAt j) := by
        intro j hj
        have h0 := hR 0 (by omega) j (by omega) (Or.inr hj)
        simpa using h0
      have hSep0 : ∀ j : Nat, j < extra → ∀ t : Nat, t ≤ extra →
          b.phaseAlign.rdAddrAt j ≠ b.store + t := by
        intro j hj t ht
        have h0 := hSep 0 (by omega) j (by omega) (Or.inr hj) 0 (by omega) t ht
        simpa using h0
      have hD0 : ∀ t : Nat, t ≤ extra →
          readMem N (b.store + t)
            = readMem ((bltRow M b extra org ext).1) (b.store + t) := by
        intro t ht
        have h0 := hD 0 (by omega) t ht
        simp only [Nat.cast_zero, mul_zero, add_zero, zero_add] at h0
        rw [h0]
        apply readMem_congr
        show (bltRows (bltRow M b extra org ext).1
          { (bltRow M b extra org ext).2 with
              store := (bltRow M b extra org ext).2.store + displace,
              phaseAlign := { (bltRow M b extra org ext).2.phaseAlign with
                store := (bltRow M b extra org ext).2.phaseAlign.store
                  + displaceSrc } }
          extra org ext displace displaceSrc q).1 (b.store + (t : Int))
          = (bltRow M b extra org ext).1 (b.store + (t : Int))
        apply bltRows_fst_ne
        intro i' hi' t' ht'
        show b.store + (t : Int) ≠ (bltRow M b extra org ext).2.store + displace
          + ((extra : Int) + 1 + displace) * i' + t'
        rw [bltRow_snd_store]
        have hww := hW 0 (by omega) (i' + 1) (by omega) (by omega) t ht t' ht'
        intro hc
        apply hww
        push_cast at hc ⊢
        linear_combination hc
      have hLast0 : (readMem N (b.phaseAlign.rdAddrAt extra)
            = readMem M (b.phaseAlign.rdAddrAt extra)
          ∧ ∀ t : Nat, t ≤ extra → b.phaseAlign.rdAddrAt extra ≠ b.store + t)
          ∨ killCond b.phaseAlign ext := by
        by_cases hq : q = 0
        · subst hq
          rcases hLastKill with ⟨hagr, hsep⟩ | hkill
          · left
            constructor
            · simpa using hagr
            · intro t ht
              have h0 := hsep 0 (by omega) t ht
              simpa using h0
          · right
            exact hkill
        · left
          constructor
          · have h0 := hR 0 (by omega) extra (by omega) (Or.inl (by omega))
            simpa using h0
          · intro t ht
            have h0 := hSep 0 (by omega) extra (by omega) (Or.inl (by omega))
              0 (by omega) t ht
            simpa using h0
      have hrow := bltRow_pair M N b extra org ext hext hrop hPre0 hR0 hLast0 hSep0 hD0
      by_cases hq : q = 0
      · -- a single line: the loop is exactly one `bltRow`
        subst hq
        intro i hi t ht
        have hi0 : i = 0 := by omega
        subst hi0
        show readMem ((bltRow N b extra org ext).1)
            (b.store + ((extra : Int) + 1 + displace) * ((0 : Nat) : Int) + t)
          = readMem M (b.store + ((extra : Int) + 1 + displace) * ((0 : Nat) : Int) + t)
        simp only [Nat.cast_zero, mul_zero, add_zero, zero_add]
        exact hrow.1 t ht
      · -- at least two lines: the first line ends in a common state
        have hrowEq : (bltRow N b extra org ext).2 = (bltRow M b extra org ext).2 := by
          apply hrow.2
          constructor
          · have h0 := hR 0 (by omega) extra (by omega) (Or.inl (by omega))
            simpa using h0
          · intro t ht
            have h0 := hSep 0 (by omega) extra (by omega) (Or.inl (by omega))
              0 (by omega) t ht
            simpa using h0
        -- the first line leaves bytes outside its store run alone
        have hNtail : ∀ a : Int, (∀ t'' : Nat, t'' ≤ extra → a ≠ b.store + t'') →
            (bltRow N b extra org ext).1 a = N a := by
          intro a ha
          exact bltRow_fst_ne N b extra org ext ha
        have hMtail : ∀ a : Int, (∀ t'' : Nat, t'' ≤ extra → a ≠ b.store + t'') →
            (bltRow M b extra org ext).1 a = M a := by
          intro a ha
          exact bltRow_fst_ne M b extra org ext ha
        -- the tail of the loop, for any state with the displaced components
        have main : ∀ c : Blt, c.rop = Rop2.ropDSx →
            c.store = b.store + ((extra : Int) + 1 + displace) →
            c.phaseAlign.store = b.phaseAlign.store + ((extra : Int) + 1 + displaceSrc) →
            c.phaseAlign.kind = b.phaseAlign.kind →
            c.phaseAlign.shiftCount = b.phaseAlign.shiftCount →
            bltRows (bltRow M b extra org ext).1 c extra org ext displace displaceSrc q
              = bltRows M b extra org ext displace displaceSrc (q + 1) →
            ∀ i : Nat, i < q → ∀ t : Nat, t ≤ extra →
            readMem ((bltRows (bltRow N b extra org ext).1 c
                extra org ext displace displaceSrc q).1)
                (b.store + ((extra : Int) + 1 + displace) * ((i + 1 : Nat) : Int) + t)
              = readMem M
                (b.store + ((extra : Int) + 1 + displace) * ((i + 1 : Nat) : Int) + t) := by
          intro c hcrop hcstore hcpaStore hcKind hcSC hcrows
          have hcrd : ∀ j : Nat, c.phaseAlign.rdAddrAt j
              = b.phaseAlign.rdAddrAt j + ((extra : Int) + 1 + displaceSrc) :=
            fun j => rdAddrAt_store_shift hcKind hcpaStore j
          have hPre' : ∀ i : Nat, i < q → c.phaseAlign.kind = .leftShift →
              readMem (bltRow N b extra org ext).1
                  (c.phaseAlign.store + ((extra : Int) + 1 + displaceSrc) * i)
                = readMem (bltRow M b extra org ext).1
                  (c.phaseAlign.store + ((extra : Int) + 1 + displaceSrc) * i) := by
            intro i hi hk
            rw [hcpaStore]
            have haddr : b.phaseAlign.store + ((extra : Int) + 1 + displaceSrc)
                + ((extra : Int) + 1 + displaceSrc) * i
                = b.phaseAlign.store
                  + ((extra : Int) + 1 + displaceSrc) * ((i + 1 : Nat) : Int) := by
              push_cast
              ring
            rw [haddr]
            have hk' : b.phaseAlign.kind = .leftShift := by rw [← hcKind]; exact hk
            have hne : ∀ t'' : Nat, t'' ≤ extra →
                b.phaseAlign.store
                    + ((extra : Int) + 1 + displaceSrc) * ((i + 1 : Nat) : Int)
                  ≠ b.store + t'' := by
              intro t'' ht''
              have hs := hSepPre hk' (i + 1) (by omega) 0 (by omega) t'' ht''
              intro hc
              apply hs
              rw [hc]
              push_cast
              ring
            rw [readMem_congr (hNtail _ hne), readMem_congr (hMtail _ hne)]
            exact hPre (i + 1) (by omega) hk'
          have hR' : ∀ i : Nat, i < q → ∀ j : Nat, j ≤ extra → (i + 1 < q ∨ j < extra) →
              readMem (bltRow N b extra org ext).1
                  (c.phaseAlign.rdAddrAt j + ((extra : Int) + 1 + displaceSrc) * i)
                = readMem (bltRow M b extra org ext).1
                  (c.phaseAlign.rdAddrAt j + ((extra : Int) + 1 + displaceSrc) * i) := by
            intro i hi j hj hcond
            rw [hcrd j]
            have haddr : b.phaseAlign.rdAddrAt j + ((extra : Int) + 1 + displaceSrc)
                + ((extra : Int) + 1 + displaceSrc) * i
                = b.phaseAlign.rdAddrAt j
                  + ((extra : Int) + 1 + displaceSrc) * ((i + 1 : Nat) : Int) := by
              push_cast
              ring
            rw [haddr]
            have hcond' : i + 1 + 1 < q + 1 ∨ j < extra := by
              rcases hcond with h | h
              · left; omega
              · right; exact h
            have hne : ∀ t'' : Nat, t'' ≤ extra →
                b.phaseAlign.rdAddrAt j
                    + ((extra : Int) + 1 + displaceSrc) * ((i + 1 : Nat) : Int)
                  ≠ b.store + t'' := by
              intro t'' ht''
              have hs := hSep (i + 1) (by omega) j hj hcond' 0 (by omega) t'' ht''
              intro hc
              apply hs
              rw [hc]
              push_cast
              ring
            rw [readMem_congr (hNtail _ hne), readMem_congr (hMtail _ hne)]
            exact hR (i + 1) (by omega) j hj hcond'
          have hLast' : (readMem (bltRow N b extra org ext).1
                  (c.phaseAlign.rdAddrAt extra
                    + ((extra : Int) + 1 + displaceSrc) * ((q - 1 : Nat) : Int))
                = readMem (bltRow M b extra org ext).1
                  (c.phaseAlign.rdAddrAt extra
                    + ((extra : Int) + 1 + displaceSrc) * ((q - 1 : Nat) : Int))
              ∧ ∀ i' : Nat, i' < q → ∀ t : Nat, t ≤ extra →
                c.phaseAlign.rdAddrAt extra
                    + ((extra : Int) + 1 + displaceSrc) * ((q - 1 : Nat) : Int)
                  ≠ c.store + ((extra : Int) + 1 + displace) * i' + t)
              ∨ killCond c.phaseAlign ext := by
            rw [hcrd extra]
            have haddr : b.phaseAlign.rdAddrAt extra + ((extra : Int) + 1 + displaceSrc)
                + ((extra : Int) + 1 + displaceSrc) * ((q - 1 : Nat) : Int)
                = b.phaseAlign.rdAddrAt extra
                  + ((extra : Int) + 1 + displaceSrc) * ((q + 1 - 1 : Nat) : Int) := by
              have hqq : ((q + 1 - 1 : Nat) : Int) = ((q - 1 : Nat) : Int) + 1 := by omega
              rw [hqq]
              ring
            rw [haddr]
            rcases hLastKill with ⟨hagr, hsep⟩ | hkill
            · left
              constructor
              · have hne : ∀ t'' : Nat, t'' ≤ extra →
                    b.phaseAlign.rdAddrAt extra
                        + ((extra : Int) + 1 + displaceSrc) * ((q + 1 - 1 : Nat) : Int)
                      ≠ b.store + t'' := by
                  intro t'' ht''
                  have hs := hsep 0 (by omega) t'' ht''
                  intro hc
                  apply hs
                  rw [hc]
                  push_cast
                  ring
                rw [readMem_congr (hNtail _ hne), readMem_congr (hMtail _ hne)]
                exact hagr
              · intro i' hi' t ht
                rw [hcstore]
                have hs := hsep (i' + 1) (by omega) t ht
                intro hc
                apply hs
                push_cast at hc ⊢
                linear_combination hc
            · right
              exact killCond_congr hcKind.symm hcSC.symm hkill
          have hSep' : ∀ i : Nat, i < q → ∀ j : Nat, j ≤ extra →
              (i + 1 < q ∨ j < extra) → ∀ i' : Nat, i' < q → ∀ t : Nat, t ≤ extra →
              c.phaseAlign.rdAddrAt j + ((extra : Int) + 1 + displaceSrc) * i
                ≠ c.store + ((extra : Int) + 1 + displace) * i' + t := by
            intro i hi j hj hcond i' hi' t ht
            rw [hcrd j, hcstore]
            have hcond' : i + 1 + 1 < q + 1 ∨ j < extra := by
              rcases hcond with h | h
              · left; omega
              · right; exact h
            have hs := hSep (i + 1) (by omega) j hj hcond' (i' + 1) (by omega) t ht
            intro hc
            apply hs
            push_cast at hc ⊢
            linear_combination hc
          have hSepPre' : c.phaseAlign.kind = .leftShift → ∀ i : Nat, i < q →
              ∀ i' : Nat, i' < q → ∀ t : Nat, t ≤ extra →
              c.phaseAlign.store + ((extra : Int) + 1 + displaceSrc) * i
                ≠ c.store + ((extra : Int) + 1 + displace) * i' + t := by
            intro hk i hi i' hi' t ht
            rw [hcpaStore, hcstore]
            have hk' : b.phaseAlign.kind = .leftShift := by rw [← hcKind]; exact hk
            have hs := hSepPre hk' (i + 1) (by omega) (i' + 1) (by omega) t ht
            intro hc
            apply hs
            push_cast at hc ⊢
            linear_combination hc
          have hW' : ∀ i : Nat, i < q → ∀ i' : Nat, i' < q → i ≠ i' →
              ∀ t : Nat, t ≤ extra → ∀ t' : Nat, t' ≤ extra →
              c.store + ((extra : Int) + 1 + displace) * i + t
                ≠ c.store + ((extra : Int) + 1 + displace) * i' + t' := by
            intro i hi i' hi' hii t ht t' ht'
            rw [hcstore]
            have hs := hW (i + 1) (by omega) (i' + 1) (by omega) (by omega) t ht t' ht'
            intro hc
            apply hs
            push_cast at hc ⊢
            linear_combination hc
          have hD' : ∀ i : Nat, i < q → ∀ t : Nat, t ≤ extra →
              readMem (bltRow N b extra org ext).1
                  (c.store + ((extra : Int) + 1 + displace) * i + t)
                = readMem ((bltRows (bltRow M b extra org ext).1 c
                    extra org ext displace displaceSrc q).1)
                  (c.store + ((extra : Int) + 1 + displace) * i + t) := by
            intro i hi t ht
            rw [hcstore, hcrows]
            have haddr : b.store + ((extra : Int) + 1 + displace)
                + ((extra : Int) + 1 + displace) * i
                = b.store + ((extra : Int) + 1 + displace) * ((i + 1 : Nat) : Int) := by
              push_cast
              ring
            rw [haddr]
            have hne : ∀ t'' : Nat, t'' ≤ extra →
                b.store + ((extra : Int) + 1 + displace) * ((i + 1 : Nat) : Int) + t
                  ≠ b.store + t'' := by
              intro t'' ht''
              have hs := hW (i + 1) (by omega) 0 (by omega) (by omega) t ht t'' ht''
              intro hc
              apply hs
              push_cast at hc ⊢
              linear_combination hc
            rw [readMem_congr (hNtail _ hne)]
            exact hD (i + 1) (by omega) t ht
          have hIH := ih (bltRow M b extra org ext).1 (bltRow N b extra org ext).1 c
            hcrop hPre' hR' hLast' hSep' hSepPre' hW' hD'
          intro i hi t ht
          have hc1 := hIH i hi t ht
          rw [hcstore] at hc1
          have haddr : b.store + ((extra : Int) + 1 + displace)
              + ((extra : Int) + 1 + displace) * i
              = b.store + ((extra : Int) + 1 + displace) * ((i + 1 : Nat) : Int) := by
            push_cast
            ring
          rw [haddr] at hc1
          rw [hc1]
          have hne : ∀ t'' : Nat, t'' ≤ extra →
              b.store + ((extra : Int) + 1 + displace) * ((i + 1 : Nat) : Int) + t
                ≠ b.store + t'' := by
            intro t'' ht''
            have hs := hW (i + 1) (by omega) 0 (by omega) (by omega) t ht t'' ht''
            intro hc
            apply hs
            push_cast at hc ⊢
            linear_combination hc
          exact readMem_congr (hMtail _ hne)
        -- assemble: the first line restores its own bytes, `main` the rest
        intro i hi t ht
        rcases Nat.eq_zero_or_pos i with hi0 | hipos
        · subst hi0
          have hsimp : b.store + ((extra : Int) + 1 + displace) * ((0 : Nat) : Int) + t
              = b.store + (t : Int) := by
            push_cast
            ring
          rw [hsimp]
          have htail : (bltRows N b extra org ext displace displaceSrc (q + 1)).1
              (b.store + (t : Int)) = (bltRow N b extra org ext).1 (b.store + (t : Int)) := by
            show (bltRows (bltRow N b extra org ext).1
              { (bltRow N b extra org ext).2 with
                  store := (bltRow N b extra org ext).2.store + displace,
                  phaseAlign := { (bltRow N b extra org ext).2.phaseAlign with
                    store := (bltRow N b extra org ext).2.phaseAlign.store
                      + displaceSrc } }
              extra org ext displace displaceSrc q).1 (b.store + (t : Int)) = _
            apply bltRows_fst_ne
            intro i' hi' t' ht'
            show b.store + (t : Int) ≠ (bltRow N b extra org ext).2.store + displace
              + ((extra : Int) + 1 + displace) * i' + t'
            rw [bltRow_snd_store]
            have hww := hW 0 (by omega) (i' + 1) (by omega) (by omega) t ht t' ht'
            intro hc
            apply hww
            push_cast at hc ⊢
            linear_combination hc
          rw [readMem_congr htail]
          exact hrow.1 t ht
        · obtain ⟨i'', rfl⟩ : ∃ i0, i = i0 + 1 := ⟨i - 1, by omega⟩
          have hrd := bltRow_snd_pa N b extra org ext hrop
          exact main
            { (bltRow N b extra org ext).2 with
                store := (bltRow N b extra org ext).2.store + displace,
                phaseAlign := { (bltRow N b extra org ext).2.phaseAlign with
                  store := (bltRow N b extra org ext).2.phaseAlign.store + displaceSrc } }
            (by show (bltRow N b extra org ext).2.rop = Rop2.ropDSx
                rw [bltRow_snd_rop]
                exact hrop)
            (by show (bltRow N b extra org ext).2.store + displace = _
                rw [bltRow_snd_store]
                ring)
            (by show (bltRow N b extra org ext).2.phaseAlign.store + displaceSrc = _
                rw [hrd.1]
                ring)
            (by show (bltRow N b extra org ext).2.phaseAlign.kind = _
                exact hrd.2.1)
            (by show (bltRow N b extra org ext).2.phaseAlign.shiftCount = _
                exact hrd.2.2)
            (by rw [hrowEq]; rfl)
            i'' (by omega) t ht

/-- The involution engine: when every store of the inner loop lands in the
destination store, the stores of distinct lines are distinct, and every
fetch reads inside the (disjoint) source store — except possibly the last
fetch of the last line, which may instead satisfy the dead-bits condition —
then running the loop twice restores the whole memory. -/
theorem bltRows_DSx_involution (dst src : BitPlane) (extra org ext : Nat)
    (displace displaceSrc : Int) (hext : ext < 256)
    (m : Mem) (b : Blt) (cy : Nat)
    (hrop : b.rop = .ropDSx)
    (hdisj : ∀ a : Int, dst.inStore a → ¬ src.inStore a)
    (hwr : ∀ i : Nat, i < cy → ∀ t : Nat, t ≤ extra →
      dst.inStore (b.store + ((extra : Int) + 1 + displace) * i + t))
    (hW : ∀ i : Nat, i < cy → ∀ i' : Nat, i' < cy → i ≠ i' → ∀ t : Nat, t ≤ extra →
      ∀ t' : Nat, t' ≤ extra →
      b.store + ((extra : Int) + 1 + displace) * i + t
        ≠ b.store + ((extra : Int) + 1 + displace) * i' + t')
    (hrdin : ∀ i : Nat, i < cy → ∀ j : Nat, j ≤ extra → (i + 1 < cy ∨ j < extra) →
      src.inStore (b.phaseAlign.rdAddrAt j + ((extra : Int) + 1 + displaceSrc) * i))
    (hprein : b.phaseAlign.kind = .leftShift → ∀ i : Nat, i < cy →
      src.inStore (b.phaseAlign.store + ((extra : Int) + 1 + displaceSrc) * i))
    (hlast : src.inStore (b.phaseAlign.rdAddrAt extra
        + ((extra : Int) + 1 + displaceSrc) * ((cy - 1 : Nat) : Int))
      ∨ killCond b.phaseAlign ext) :
    ∀ a : Int,
      readMem ((bltRows (bltRows m b extra org ext displace displaceSrc cy).1
          b extra org ext displace displaceSrc cy).1) a = readMem m a := by
  have hsrcN : ∀ a : Int, src.inStore a →
      (bltRows m b extra org ext displace displaceSrc cy).1 a = m a := by
    intro a ha
    apply bltRows_fst_ne
    intro i hi t ht hc
    rw [hc] at ha
    exact hdisj _ (hwr i hi t ht) ha
  have hPre : ∀ i : Nat, i < cy → b.phaseAlign.kind = .leftShift →
      readMem (bltRows m b extra org ext displace displaceSrc cy).1
          (b.phaseAlign.store + ((extra : Int) + 1 + displaceSrc) * i)
        = readMem m (b.phaseAlign.store + ((extra : Int) + 1 + displaceSrc) * i) := by
    intro i hi hk
    exact readMem_congr (hsrcN _ (hprein hk i hi))
  have hR : ∀ i : Nat, i < cy → ∀ j : Nat, j ≤ extra → (i + 1 < cy ∨ j < extra) →
      readMem (bltRows m b extra org ext displace displaceSrc cy).1
          (b.phaseAlign.rdAddrAt j + ((extra : Int) + 1 + displaceSrc) * i)
        = readMem m (b.phaseAlign.rdAddrAt j + ((extra : Int) + 1 + displaceSrc) * i) := by
    intro i hi j hj hcond
    exact readMem_congr (hsrcN _ (hrdin i hi j hj hcond))
  have hSep : ∀ i : Nat, i < cy → ∀ j : Nat, j ≤ extra → (i + 1 < cy ∨ j < extra) →
      ∀ i' : Nat, i' < cy → ∀ t : Nat, t ≤ extra →
      b.phaseAlign.rdAddrAt j + ((extra : Int) + 1 + displaceSrc) * i
        ≠ b.store + ((extra : Int) + 1 + displace) * i' + t := by
    intro i hi j hj hcond i' hi' t ht hc
    have hs := hrdin i hi j hj hcond
    rw [hc] at hs
    exact hdisj _ (hwr i' hi' t ht) hs
  have hSepPre : b.phaseAlign.kind = .leftShift → ∀ i : Nat, i < cy →
      ∀ i' : Nat, i' < cy → ∀ t : Nat, t ≤ extra →
      b.phaseAlign.store + ((extra : Int) + 1 + displaceSrc) * i
        ≠ b.store + ((extra : Int) + 1 + displace) * i' + t := by
    intro hk i hi i' hi' t ht hc
    have hs := hprein hk i hi
    rw [hc] at hs
    exact hdisj _ (hwr i' hi' t ht) hs
  have hLastKill : (readMem (bltRows m b extra org ext displace displaceSrc cy).1
          (b.phaseAlign.rdAddrAt extra
            + ((extra : Int) + 1 + displaceSrc) * ((cy - 1 : Nat) : Int))
        = readMem m (b.phaseAlign.rdAddrAt extra
            + ((extra : Int) + 1 + displaceSrc) * ((cy - 1 : Nat) : Int))
      ∧ ∀ i' : Nat, i' < cy → ∀ t : Nat, t ≤ extra →
        b.phaseAlign.rdAddrAt extra
            + ((extra : Int) + 1 + displaceSrc) * ((cy - 1 : Nat) : Int)
          ≠ b.store + ((extra : Int) + 1 + displace) * i' + t)
      ∨ killCond b.phaseAlign ext := by
    rcases hlast with hin | hkill
    · left
      constructor
      · exact readMem_congr (hsrcN _ hin)
      · intro i' hi' t ht hc
        rw [hc] at hin
        exact hdisj _ (hwr i' hi' t ht) hin
    · right
      exact hkill
  have hpair := bltRows_pair extra org ext displace displaceSrc hext cy m
    (bltRows m b extra org ext displace displaceSrc cy).1 b hrop hPre hR hLastKill
    hSep hSepPre hW (fun i _ t _ => rfl)
  intro a
  by_cases hin : ∃ i : Nat, i < cy ∧ ∃ t : Nat, t ≤ extra ∧
      a = b.store + ((extra : Int) + 1 + displace) * i + t
  · obtain ⟨i, hi, t, ht, rfl⟩ := hin
    exact hpair i hi t ht
  · push_neg at hin
    have h2 := bltRows_fst_ne extra org ext displace displaceSrc cy
      (bltRows m b extra org ext displace displaceSrc cy).1 b
      (fun i hi t ht => hin i hi t ht)
    have h1 := bltRows_fst_ne extra org ext displace displaceSrc cy m b
      (fun i hi t ht => hin i hi t ht)
    rw [readMem_congr h2]
    exact readMem_congr h1

/-- The geometric instantiation of the involution engine for the inner loop
of `bitBltBody`: with clipped in-bounds rectangles on well-formed planes
with disjoint stores, the loop's stores stay inside the destination store
and are mutually distinct, and its fetches either read inside the source
store or — only at the very last fetch of the last line — satisfy the
dead-bits condition of the extent mask. -/
theorem bitBltBody_DSx_geo (m : Mem) (dst src : BitPlane)
    (x y cx cy xSrc ySrc : Nat) (b : Blt)
    (hdW : dst.widthScanBytes = (dst.width + 7) / 8)
    (hsW : src.widthScanBytes = (src.width + 7) / 8)
    (hcx : 0 < cx) (hcy : 0 < cy)
    (hxw : (x : Int) + cx ≤ dst.width) (hyh : (y : Int) + cy ≤ dst.height)
    (hxsw : (xSrc : Int) + cx ≤ src.width) (hysh : (ySrc : Int) + cy ≤ src.height)
    (hdisj : ∀ a : Int, dst.inStore a → ¬ src.inStore a)
    (hrop : b.rop = .ropDSx)
    (hbstore : b.store = dst.findBits (x : Int) (y : Int))
    (hpastore : b.phaseAlign.store = src.findBits (xSrc : Int) (ySrc : Int))
    (hkind3 : (b.phaseAlign.kind = .inPhase ∧ x % 8 = xSrc % 8)
      ∨ (b.phaseAlign.kind = .rightShift
          ∧ b.phaseAlign.shiftCount = ((x % 8 : Nat) : Int) - ((xSrc % 8 : Nat) : Int)
          ∧ xSrc % 8 < x % 8)
      ∨ (b.phaseAlign.kind = .leftShift
          ∧ b.phaseAlign.shiftCount
              = -(((x % 8 : Nat) : Int) - ((xSrc % 8 : Nat) : Int))
          ∧ x % 8 < xSrc % 8)) :
    ∀ a : Int,
      readMem ((bltRows (bltRows m b ((x + cx - 1) / 8 - x / 8)
            (0xff >>> (x % 8)) ((0xff <<< (7 - (x + cx - 1) % 8)) % 256)
            (dst.widthScanBytes - 1 - (((x + cx - 1) / 8 - x / 8 : Nat) : Int))
            (src.widthScanBytes - 1 - (((x + cx - 1) / 8 - x / 8 : Nat) : Int)) cy).1
          b ((x + cx - 1) / 8 - x / 8)
          (0xff >>> (x % 8)) ((0xff <<< (7 - (x + cx - 1) % 8)) % 256)
          (dst.widthScanBytes - 1 - (((x + cx - 1) / 8 - x / 8 : Nat) : Int))
          (src.widthScanBytes - 1 - (((x + cx - 1) / 8 - x / 8 : Nat) : Int)) cy).1) a
        = readMem m a := by
  have hWd0 : (0 : Int) ≤ dst.widthScanBytes := by rw [hdW]; omega
  have hWs0 : (0 : Int) ≤ src.widthScanBytes := by rw [hsW]; omega
  have hWs1 : (1 : Int) ≤ src.widthScanBytes := by rw [hsW]; omega
  have hxEb : ((x : Int)) / 8 + (((x + cx - 1) / 8 - x / 8 : Nat) : Int)
      ≤ dst.widthScanBytes - 1 := by rw [hdW]; omega
  have hd1 : (((x + cx - 1) / 8 - x / 8 : Nat) : Int) + 1
      + (dst.widthScanBytes - 1 - (((x + cx - 1) / 8 - x / 8 : Nat) : Int))
      = dst.widthScanBytes := by ring
  have hs1 : (((x + cx - 1) / 8 - x / 8 : Nat) : Int) + 1
      + (src.widthScanBytes - 1 - (((x + cx - 1) / 8 - x / 8 : Nat) : Int))
      = src.widthScanBytes := by ring
  have hdstin : ∀ i : Nat, i < cy → ∀ off : Int, 0 ≤ off →
      off ≤ dst.widthScanBytes - 1 →
      dst.inStore (dst.store + dst.widthScanBytes * ((y : Int) + i) + off) := by
    intro i hi off h0 h1
    refine ⟨?_, ?_⟩
    · have h2 : 0 ≤ dst.widthScanBytes * ((y : Int) + i) :=
        mul_nonneg hWd0 (by positivity)
      omega
    · have hrow : (y : Int) + i ≤ dst.height - 1 := by omega
      have hmul := mul_le_mul_of_nonneg_left hrow hWd0
      have hring : dst.widthScanBytes * (dst.height - 1)
          = dst.widthScanBytes * dst.height - dst.widthScanBytes := by ring
      omega
  have hsrcin : ∀ i : Nat, i < cy → ∀ off : Int, 0 ≤ off →
      (off ≤ src.widthScanBytes - 1 ∨ (i + 1 < cy ∧ off ≤ src.widthScanBytes)) →
      src.inStore (src.store + src.widthScanBytes * ((ySrc : Int) + i) + off) := by
    intro i hi off h0 hcase
    refine ⟨?_, ?_⟩
    · have h2 : 0 ≤ src.widthScanBytes * ((ySrc : Int) + i) :=
        mul_nonneg hWs0 (by positivity)
      omega
    · rcases hcase with h1 | ⟨hi2, h1⟩
      · have hrow : (ySrc : Int) + i ≤ src.height - 1 := by omega
        have hmul := mul_le_mul_of_nonneg_left hrow hWs0
        have hring : src.widthScanBytes * (src.height - 1)
            = src.widthScanBytes * src.height - src.widthScanBytes := by ring
        omega
      · have hrow : (ySrc : Int) + i ≤ src.height - 2 := by omega
        have hmul := mul_le_mul_of_nonneg_left hrow hWs0
        have hring : src.widthScanBytes * (src.height - 2)
            = src.widthScanBytes * src.height - 2 * src.widthScanBytes := by ring
        omega
  have hextF : (0xff <<< (7 - (x + cx - 1) % 8)) % 256 < 256 :=
    Nat.mod_lt _ (by omega)
  have hwrF : ∀ i : Nat, i < cy → ∀ t : Nat, t ≤ (x + cx - 1) / 8 - x / 8 →
      dst.inStore (b.store + ((((x + cx - 1) / 8 - x / 8 : Nat) : Int) + 1
        + (dst.widthScanBytes - 1 - (((x + cx - 1) / 8 - x / 8 : Nat) : Int))) * i + t) := by
    intro i hi t ht
    rw [hbstore, hd1]
    have heq : dst.findBits (x : Int) (y : Int) + dst.widthScanBytes * i + t
        = dst.store + dst.widthScanBytes * ((y : Int) + i) + ((x : Int) / 8 + t) := by
      unfold BitPlane.findBits
      ring
    rw [heq]
    apply hdstin i hi
    · omega
    · omega
  have hWF : ∀ i : Nat, i < cy → ∀ i' : Nat, i' < cy → i ≠ i' →
      ∀ t : Nat, t ≤ (x + cx - 1) / 8 - x / 8 →
      ∀ t' : Nat, t' ≤ (x + cx - 1) / 8 - x / 8 →
      b.store + ((((x + cx - 1) / 8 - x / 8 : Nat) : Int) + 1
        + (dst.widthScanBytes - 1 - (((x + cx - 1) / 8 - x / 8 : Nat) : Int))) * i + t
        ≠ b.store + ((((x + cx - 1) / 8 - x / 8 : Nat) : Int) + 1
          + (dst.widthScanBytes - 1 - (((x + cx - 1) / 8 - x / 8 : Nat) : Int))) * i' + t' := by
    intro i hi i' hi' hii t ht t' ht'
    rw [hd1]
    intro hc
    have hkey : dst.widthScanBytes * (i : Int) + t
        = dst.widthScanBytes * (i' : Int) + t' := by omega
    obtain ⟨hq, -⟩ := euclid_unique (show (0 : Int) < dst.widthScanBytes by omega)
      (by positivity) (by omega) (by positivity) (by omega) hkey
    exact hii (by omega)
  rcases hkind3 with ⟨hk, hph⟩ | ⟨hk, hsc, hph⟩ | ⟨hk, hsc, hph⟩
  · -- in phase: every fetch of every line reads inside the source store
    have hlft : ∀ j : Nat, b.phaseAlign.rdAddrAt j
        = src.findBits (xSrc : Int) (ySrc : Int) + j := by
      intro j
      unfold PhaseAlign.rdAddrAt
      rw [hk]
      show b.phaseAlign.store + (j : Int) = _
      rw [hpastore]
    have hB3 : ((xSrc : Int)) / 8 + (((x + cx - 1) / 8 - x / 8 : Nat) : Int)
        ≤ src.widthScanBytes - 1 := by rw [hsW]; omega
    refine bltRows_DSx_involution dst src _ _ _ _ _ hextF m b cy hrop hdisj
      hwrF hWF ?_ ?_ ?_
    · intro i hi j hj hcond
      rw [hlft j, hs1]
      have heq : src.findBits (xSrc : Int) (ySrc : Int) + j + src.widthScanBytes * i
          = src.store + src.widthScanBytes * ((ySrc : Int) + i)
            + ((xSrc : Int) / 8 + j) := by
        unfold BitPlane.findBits
        ring
      rw [heq]
      apply hsrcin i hi
      · omega
      · rcases hcond with hi2 | hj2
        · right
          exact ⟨hi2, by omega⟩
        · left
          omega
    · intro hk'
      rw [hk] at hk'
      exact absurd hk' (by decide)
    · left
      rw [hlft ((x + cx - 1) / 8 - x / 8), hs1]
      have heq : src.findBits (xSrc : Int) (ySrc : Int)
            + (((x + cx - 1) / 8 - x / 8 : Nat) : Int)
            + src.widthScanBytes * ((cy - 1 : Nat) : Int)
          = src.store + src.widthScanBytes * ((ySrc : Int) + ((cy - 1 : Nat) : Int))
            + ((xSrc : Int) / 8 + (((x + cx - 1) / 8 - x / 8 : Nat) : Int)) := by
        unfold BitPlane.findBits
        ring
      rw [heq]
      apply hsrcin (cy - 1) (by omega)
      · omega
      · left
        omega
  · -- right shift: the last fetch may overrun, exactly when the extent
    -- mask kills the low bits the overrunning byte could contribute
    have hlft : ∀ j : Nat, b.phaseAlign.rdAddrAt j
        = src.findBits (xSrc : Int) (ySrc : Int) + j := by
      intro j
      unfold PhaseAlign.rdAddrAt
      rw [hk]
      show b.phaseAlign.store + (j : Int) = _
      rw [hpastore]
    have hB1 : ((xSrc : Int)) / 8 + (((x + cx - 1) / 8 - x / 8 : Nat) : Int)
        ≤ src.widthScanBytes := by rw [hsW]; omega
    refine bltRows_DSx_involution dst src _ _ _ _ _ hextF m b cy hrop hdisj
      hwrF hWF ?_ ?_ ?_
    · intro i hi j hj hcond
      rw [hlft j, hs1]
      have heq : src.findBits (xSrc : Int) (ySrc : Int) + j + src.widthScanBytes * i
          = src.store + src.widthScanBytes * ((ySrc : Int) + i)
            + ((xSrc : Int) / 8 + j) := by
        unfold BitPlane.findBits
        ring
      rw [heq]
      apply hsrcin i hi
      · omega
      · rcases hcond with hi2 | hj2
        · right
          exact ⟨hi2, by omega⟩
        · left
          omega
    · intro hk'
      rw [hk] at hk'
      exact absurd hk' (by decide)
    · by_cases hkill : (x + cx - 1) % 8 < x % 8 - xSrc % 8
      · right
        unfold killCond
        rw [hk]
        show (0xff <<< (7 - (x + cx - 1) % 8)) % 256
          &&& (2 ^ ((8 : Int) - b.phaseAlign.shiftCount).toNat - 1) = 0
        rw [hsc]
        have h8 : ((8 : Int) - (((x % 8 : Nat) : Int) - ((xSrc % 8 : Nat) : Int))).toNat
            = 8 - (x % 8 - xSrc % 8) := by omega
        rw [h8]
        exact extMask_land_low (by omega)
      · left
        rw [hlft ((x + cx - 1) / 8 - x / 8), hs1]
        have heq : src.findBits (xSrc : Int) (ySrc : Int)
              + (((x + cx - 1) / 8 - x / 8 : Nat) : Int)
              + src.widthScanBytes * ((cy - 1 : Nat) : Int)
            = src.store + src.widthScanBytes * ((ySrc : Int) + ((cy - 1 : Nat) : Int))
              + ((xSrc : Int) / 8 + (((x + cx - 1) / 8 - x / 8 : Nat) : Int)) := by
          unfold BitPlane.findBits
          ring
        rw [heq]
        have hB3 : ((xSrc : Int)) / 8 + (((x + cx - 1) / 8 - x / 8 : Nat) : Int)
            ≤ src.widthScanBytes - 1 := by rw [hsW]; omega
        apply hsrcin (cy - 1) (by omega)
        · omega
        · left
          omega
  · -- left shift: the fetches read one byte ahead; the last fetch may
    -- overrun, exactly when the extent mask kills the low shifted bits
    have hlft : ∀ j : Nat, b.phaseAlign.rdAddrAt j
        = src.findBits (xSrc : Int) (ySrc : Int) + 1 + j := by
      intro j
      unfold PhaseAlign.rdAddrAt
      rw [hk]
      show b.phaseAlign.store + 1 + (j : Int) = _
      rw [hpastore]
    have hB1 : ((xSrc : Int)) / 8 + 1 + (((x + cx - 1) / 8 - x / 8 : Nat) : Int)
        ≤ src.widthScanBytes := by rw [hsW]; omega
    have hsq : ((xSrc : Int)) / 8 ≤ src.widthScanBytes - 1 := by rw [hsW]; omega
    refine bltRows_DSx_involution dst src _ _ _ _ _ hextF m b cy hrop hdisj
      hwrF hWF ?_ ?_ ?_
    · intro i hi j hj hcond
      rw [hlft j, hs1]
      have heq : src.findBits (xSrc : Int) (ySrc : Int) + 1 + j
            + src.widthScanBytes * i
          = src.store + src.widthScanBytes * ((ySrc : Int) + i)
            + ((xSrc : Int) / 8 + 1 + j) := by
        unfold BitPlane.findBits
        ring
      rw [heq]
      apply hsrcin i hi
      · omega
      · rcases hcond with hi2 | hj2
        · right
          exact ⟨hi2, by omega⟩
        · left
          omega
    · intro _ i hi
      rw [hpastore, hs1]
      have heq : src.findBits (xSrc : Int) (ySrc : Int) + src.widthScanBytes * i
          = src.store + src.widthScanBytes * ((ySrc : Int) + i)
            + ((xSrc : Int) / 8) := by
        unfold BitPlane.findBits
        ring
      rw [heq]
      apply hsrcin i hi
      · omega
      · left
        omega
    · by_cases hkill : (x + cx - 1) % 8 + (xSrc % 8 - x % 8) ≤ 7
      · right
        unfold killCond
        rw [hk]
        show (0xff <<< (7 - (x + cx - 1) % 8)) % 256
          &&& (2 ^ (b.phaseAlign.shiftCount).toNat - 1) = 0
        rw [hsc]
        have h8 : (-(((x % 8 : Nat) : Int) - ((xSrc % 8 : Nat) : Int))).toNat
            = xSrc % 8 - x % 8 := by omega
        rw [h8]
        exact extMask_land_low (by omega)
      · left
        rw [hlft ((x + cx - 1) / 8 - x / 8), hs1]
        have heq : src.findBits (xSrc : Int) (ySrc : Int) + 1
              + (((x + cx - 1) / 8 - x / 8 : Nat) : Int)
              + src.widthScanBytes * ((cy - 1 : Nat) : Int)
            = src.store + src.widthScanBytes * ((ySrc : Int) + ((cy - 1 : Nat) : Int))
              + ((xSrc : Int) / 8 + 1 + (((x + cx - 1) / 8 - x / 8 : Nat) : Int)) := by
          unfold BitPlane.findBits
          ring
        rw [heq]
        have hB3 : ((xSrc : Int)) / 8 + 1 + (((x + cx - 1) / 8 - x / 8 : Nat) : Int)
            ≤ src.widthScanBytes - 1 := by rw [hsW]; omega
        apply hsrcin (cy - 1) (by omega)
        · omega
        · left
          omega

/-- Claim C7: for every destination plane, every source plane distinct from
it (well-formed, with a backing store disjoint from the destination's) and
every rectangle, performing the binary `bitBlt` with the `DSx` (xor) raster
operation twice in succession with identical arguments leaves every byte of
memory — in particular every bit of the destination — equal to its value
before the first call. -/
theorem claim_C7 (m : Mem) (dst src : BitPlane) (x y cx cy xSrc ySrc : Int)
    (hdwf : dst.wf) (hswf : src.wf)
    (hdisj : ∀ a : Int, dst.inStore a → ¬ src.inStore a) :
    ∀ a : Int,
      readMem ((bitBlt ((bitBlt m dst src x y cx cy xSrc ySrc .ropDSx).2)
          dst src x y cx cy xSrc ySrc .ropDSx).2) a = readMem m a := by
  intro a
  rcases hC : clipAll dst src x y cx cy xSrc ySrc with _ | ⟨X, Y, CX, CY, XS, YS⟩
  · have h1 : bitBlt m dst src x y cx cy xSrc ySrc .ropDSx = (false, m) :=
      bitBlt_eq_none hC
    rw [h1]
    show readMem ((bitBlt m dst src x y cx cy xSrc ySrc .ropDSx).2) a = readMem m a
    rw [h1]
  · obtain ⟨hX0, hCX, hXW, hXS0, hXSW, hY0, hCY, hYH, hYS0, hYSH⟩ := clipAll_sound hC
    obtain ⟨hdw0, hdh0, hdwsb_or⟩ := hdwf
    obtain ⟨hsw0, hsh0, hswsb_or⟩ := hswf
    have hdW : dst.widthScanBytes = (dst.width + 7) / 8 := by
      rcases hdwsb_or with h | h | h
      · omega
      · omega
      · exact h
    have hsW : src.widthScanBytes = (src.width + 7) / 8 := by
      rcases hswsb_or with h | h | h
      · omega
      · omega
      · exact h
    have h1 : bitBlt m dst src x y cx cy xSrc ySrc .ropDSx
        = bitBltBody m dst src X.toNat Y.toNat CX.toNat CY.toNat XS.toNat YS.toNat
            .ropDSx :=
      bitBlt_eq_some hC
    rw [h1, bitBlt_eq_some hC]
    refine bitBltBody_DSx_geo m dst src X.toNat Y.toNat CX.toNat CY.toNat
      XS.toNat YS.toNat
      ⟨.ropDSx,
        { (if ((X.toNat % 8 : Nat) : Int) - ((XS.toNat % 8 : Nat) : Int) < 0 then
              LeftShift.make (-(((X.toNat % 8 : Nat) : Int) - ((XS.toNat % 8 : Nat) : Int)))
            else if ((X.toNat % 8 : Nat) : Int) - ((XS.toNat % 8 : Nat) : Int) = 0 then
              PhaseAlign.base
            else
              RightShift.make (((X.toNat % 8 : Nat) : Int) - ((XS.toNat % 8 : Nat) : Int)))
          with store := src.findBits ((XS.toNat : Nat) : Int) ((YS.toNat : Nat) : Int) },
        dst.findBits ((X.toNat : Nat) : Int) ((Y.toNat : Nat) : Int)⟩
      hdW hsW (by omega) (by omega) (by omega) (by omega) (by omega) (by omega)
      hdisj rfl rfl rfl ?_ a
    rcases lt_trichotomy (((X.toNat % 8 : Nat) : Int) - ((XS.toNat % 8 : Nat) : Int)) 0
      with hlt | heq0 | hgt
    · right
      right
      refine ⟨?_, ?_, ?_⟩
      · show (if ((X.toNat % 8 : Nat) : Int) - ((XS.toNat % 8 : Nat) : Int) < 0 then
              LeftShift.make (-(((X.toNat % 8 : Nat) : Int) - ((XS.toNat % 8 : Nat) : Int)))
            else if ((X.toNat % 8 : Nat) : Int) - ((XS.toNat % 8 : Nat) : Int) = 0 then
              PhaseAlign.base
            else
              RightShift.make (((X.toNat % 8 : Nat) : Int)
                - ((XS.toNat % 8 : Nat) : Int))).kind = AlignKind.leftShift
        rw [if_pos hlt]
        rfl
      · show (if ((X.toNat % 8 : Nat) : Int) - ((XS.toNat % 8 : Nat) : Int) < 0 then
              LeftShift.make (-(((X.toNat % 8 : Nat) : Int) - ((XS.toNat % 8 : Nat) : Int)))
            else if ((X.toNat % 8 : Nat) : Int) - ((XS.toNat % 8 : Nat) : Int) = 0 then
              PhaseAlign.base
            else
              RightShift.make (((X.toNat % 8 : Nat) : Int)
                - ((XS.toNat % 8 : Nat) : Int))).shiftCount
          = -(((X.toNat % 8 : Nat) : Int) - ((XS.toNat % 8 : Nat) : Int))
        rw [if_pos hlt]
        rfl
      · omega
    · left
      refine ⟨?_, ?_⟩
      · show (if ((X.toNat % 8 : Nat) : Int) - ((XS.toNat % 8 : Nat) : Int) < 0 then
              LeftShift.make (-(((X.toNat % 8 : Nat) : Int) - ((XS.toNat % 8 : Nat) : Int)))
            else if ((X.toNat % 8 : Nat) : Int) - ((XS.toNat % 8 : Nat) : Int) = 0 then
              PhaseAlign.base
            else
              RightShift.make (((X.toNat % 8 : Nat) : Int)
                - ((XS.toNat % 8 : Nat) : Int))).kind = AlignKind.inPhase
        rw [if_neg (by omega), if_pos heq0]
        rfl
      · omega
    · right
      left
      refine ⟨?_, ?_, ?_⟩
      · show (if ((X.toNat % 8 : Nat) : Int) - ((XS.toNat % 8 : Nat) : Int) < 0 then
              LeftShift.make (-(((X.toNat % 8 : Nat) : Int) - ((XS.toNat % 8 : Nat) : Int)))
            else if ((X.toNat % 8 : Nat) : Int) - ((XS.toNat % 8 : Nat) : Int) = 0 then
              PhaseAlign.base
            else
              RightShift.make (((X.toNat % 8 : Nat) : Int)
                - ((XS.toNat % 8 : Nat) : Int))).kind = AlignKind.rightShift
        rw [if_neg (by omega), if_neg (by omega)]
        rfl
      · show (if ((X.toNat % 8 : Nat) : Int) - ((XS.toNat % 8 : Nat) : Int) < 0 then
              LeftShift.make (-(((X.toNat % 8 : Nat) : Int) - ((XS.toNat % 8 : Nat) : Int)))
            else if ((X.toNat % 8 : Nat) : Int) - ((XS.toNat % 8 : Nat) : Int) = 0 then
              PhaseAlign.base
            else
              RightShift.make (((X.toNat % 8 : Nat) : Int)
                - ((XS.toNat % 8 : Nat) : Int))).shiftCount
          = ((X.toNat % 8 : Nat) : Int) - ((XS.toNat % 8 : Nat) : Int)
        rw [if_neg (by omega), if_neg (by omega)]
        rfl
      · omega

theorem claim_C7_witness :
    readMem ((bitBlt ((bitBlt memW dstW srcW 1 0 4 1 0 0 .ropDSx).2)
        dstW srcW 1 0 4 1 0 0 .ropDSx).2) 0 = readMem memW 0 := by
  have hdwf : dstW.wf := by
    unfold BitPlane.wf
    decide
  have hswf : srcW.wf := by
    unfold BitPlane.wf
    decide
  have hd : dstW = ⟨8, 1, 1, 0, false⟩ := by decide
  have hs : srcW = ⟨8, 1, 1, 50, false⟩ := by decide
  have hdisj : ∀ a : Int, dstW.inStore a → ¬ srcW.inStore a := by
    intro a
    unfold BitPlane.inStore
    rw [hd, hs]
    dsimp only
    omega
  exact claim_C7 memW dstW srcW 1 0 4 1 0 0 hdwf hswf hdisj 0

end raster
